import Mathlib

/-!
# cppimgcore: pixel buffer and colour-space conversion

A shallow embedding of `src/cppimgcore.h`.

* `s32` values are integers; `s32` arithmetic wraps modulo `2^32` into the
  two's-complement range (`wrap32`), `size_t` is 64 bits wide.
* Sample memory is a map from pointers to samples.  A pointer is a block
  identifier (absent for `CPPIMG_NULL`) and an element offset; `CPPIMG_MALLOC`
  hands out a fresh block and records the number of bytes requested.
* `CPPIMG_ASSERT` is modelled in its checked (debug) form: a failed assertion
  ends the operation with `Failure.assertion`.
* The colour converters compute in exact rational arithmetic, where the
  source computes in binary32 with the literals `0.257f`, ...: their results
  are the values of the formulas before any rounding.  The conversion of a
  sample to floating point and `static_cast<T>` are the two fields of
  `SampleType`.
* `minimum`, `maximum` and `clamp` are templates over any type with a `<`;
  `WithNaN` gives the comparisons of a floating-point type, NaN included.
-/

namespace cppimg

/-! ## Machine integers -/

/-- Reduction of an integer into the signed 32-bit range (two's complement). -/
def wrap32 (z : Int) : Int := (z + 2147483648) % 4294967296 - 2147483648

/-- Multiplication of two `s32` values. -/
def mul32 (a b : Int) : Int := wrap32 (a * b)

/-- Addition of two `s32` values. -/
def add32 (a b : Int) : Int := wrap32 (a + b)

/-- Conversion of a signed integer to `size_t` (64 bits, modular). -/
def toSizeT (z : Int) : Nat := (z % 18446744073709551616).toNat

/-- Multiplication of two `size_t` values. -/
def mulSizeT (a b : Nat) : Nat := (a * b) % 18446744073709551616

/-- Narrowing of a `size_t` value into an `s32` variable. -/
def narrow32 (n : Nat) : Int := wrap32 (n : Int)

/-- Largest `s32` value. -/
def S32_MAX : Int := 2147483647

/-- Smallest `s32` value. -/
def S32_MIN : Int := -2147483648

/-! ## Failures, pointers, memory -/

/-- Ways in which an operation can end without a result. -/
inductive Failure where
  | assertion
  | memory
deriving DecidableEq, Repr

/-- Pointer to a sample: the block it points into (`none` for the null
pointer) and the element offset inside that block. -/
structure Ptr where
  block : Option Nat
  off : Int
deriving DecidableEq, Repr

/-- The null pointer `CPPIMG_NULL`. -/
def CPPIMG_NULL : Ptr := ⟨none, 0⟩

/-- Pointer arithmetic: `p.add i` is the address of `p[i]`. -/
def Ptr.add (p : Ptr) (i : Int) : Ptr := ⟨p.block, p.off + i⟩

/-- Sample memory: the sample stored at every address. -/
abbrev Mem (T : Type) := Ptr → T

/-- Assignment through a reference: `*p = v`. -/
def Mem.store {T : Type} (m : Mem T) (p : Ptr) (v : T) : Mem T :=
  fun q => if q = p then v else m q

/-- Allocator state and sample memory.  `blocks` lists, by block identifier,
the number of bytes of every block handed out so far. -/
structure Heap (T : Type) where
  blocks : List Nat
  mem : Mem T

/-- A heap without any allocated block. -/
def Heap.empty {T : Type} (m : Mem T) : Heap T := ⟨[], m⟩

/-- Number of bytes of the block a pointer points into. -/
def Heap.blockBytes {T : Type} (h : Heap T) (p : Ptr) : Option Nat :=
  match p.block with
  | none => none
  | some b => h.blocks[b]?

/-- The `n` bytes starting at `p` lie inside an allocated block (`sz` is
`sizeof(T)`). -/
def Heap.valid {T : Type} (h : Heap T) (sz : Nat) (p : Ptr) (n : Nat) : Bool :=
  match h.blockBytes p with
  | none => false
  | some bytes => decide (0 ≤ p.off) && decide (p.off.toNat * sz + n ≤ bytes)

/-- The allocation `CPPIMG_MALLOC(size)`: a fresh block of `size` bytes whose
contents are whatever the memory holds there (no zero fill). -/
def CPPIMG_MALLOC {T : Type} (h : Heap T) (size : Nat) : Heap T × Ptr :=
  ({ h with blocks := h.blocks ++ [size] }, ⟨some h.blocks.length, 0⟩)

/-- The call `memcpy(dst, src, n)`: copies `n` bytes, that is the elements
`k` with `k * sz < n`; reading or writing outside an allocated block is a
memory failure. -/
def memcpy {T : Type} (sz : Nat) (h : Heap T) (dst src : Ptr) (n : Nat) :
    Except Failure (Heap T) :=
  if n = 0 then .ok h
  else if h.valid sz dst n && h.valid sz src n then
    .ok { h with mem := fun q =>
            if q.block = dst.block ∧ dst.off ≤ q.off ∧ (q.off - dst.off) * sz < n
            then h.mem ⟨src.block, src.off + (q.off - dst.off)⟩
            else h.mem q }
  else .error .memory

/-! ## Image -/

/-- The data members of `Image<T>`. -/
structure Image where
  width_ : Int
  height_ : Int
  channels_ : Int
  data_ : Ptr
deriving DecidableEq, Repr

/-- Accessor `Image<T>::width()`. -/
def Image.width (a : Image) : Int := a.width_

/-- Accessor `Image<T>::height()`. -/
def Image.height (a : Image) : Int := a.height_

/-- Accessor `Image<T>::channels()`. -/
def Image.channels (a : Image) : Int := a.channels_

/-- The linear accessor `Image<T>::operator[](index)`: the reference
`data_[index]`, guarded by the assertion on `index`. -/
def Image.operator_index (a : Image) (index : Int) : Except Failure Ptr :=
  if 0 ≤ index ∧ index < mul32 (mul32 a.width_ a.height_) a.channels_ then
    .ok (a.data_.add index)
  else .error .assertion

/-- The 2D accessor `Image<T>::operator()(x, y)`: the reference
`data_[(y*width_+x)*channels_]`, guarded by the assertions on `x` and `y`. -/
def Image.operator_call (a : Image) (x y : Int) : Except Failure Ptr :=
  if 0 ≤ x ∧ x < a.width_ then
    if 0 ≤ y ∧ y < a.height_ then
      .ok (a.data_.add (mul32 (add32 (mul32 y a.width_) x) a.channels_))
    else .error .assertion
  else .error .assertion

/-- The default constructor `Image<T>::Image()`. -/
def Image.Image_default : Image := ⟨0, 0, 0, CPPIMG_NULL⟩

/-- Byte count `width_*height_*channels_*sizeof(T)`: the `s32` product of the
dimensions, converted to `size_t` and multiplied by `sizeof(T)`. -/
def Image.byteCount (sz : Nat) (width height channels : Int) : Nat :=
  mulSizeT (toSizeT (mul32 (mul32 width height) channels)) sz

/-- The constructor `Image<T>::Image(width, height, channels)`. -/
def Image.Image_dims {T : Type} (sz : Nat) (h : Heap T) (width height channels : Int) :
    Except Failure (Heap T × Image) :=
  if 0 ≤ width then
    if 0 ≤ height then
      if 0 ≤ channels then
        let r := CPPIMG_MALLOC h (Image.byteCount sz width height channels)
        .ok (r.1, ⟨width, height, channels, r.2⟩)
      else .error .assertion
    else .error .assertion
  else .error .assertion

/-- The local `s32 size` of the copy constructor. -/
def Image.copySize (sz : Nat) (rhs : Image) : Int :=
  narrow32 (Image.byteCount sz rhs.width_ rhs.height_ rhs.channels_)

/-- The copy constructor `Image<T>::Image(const Image& rhs)`. -/
def Image.Image_copy {T : Type} (sz : Nat) (h : Heap T) (rhs : Image) :
    Except Failure (Heap T × Image) :=
  let size := Image.copySize sz rhs
  let r := CPPIMG_MALLOC h (toSizeT size)
  (memcpy sz r.1 r.2 rhs.data_ (toSizeT size)).map
    (fun h2 => (h2, ⟨rhs.width_, rhs.height_, rhs.channels_, r.2⟩))

/-- Sample `i` of the storage of an image. -/
def Image.sample {T : Type} (h : Heap T) (a : Image) (i : Int) : T :=
  h.mem (a.data_.add i)

/-- Program state: the `Image` objects by identity, and the heap. -/
structure State (T : Type) where
  objs : Nat → Image
  heap : Heap T

/-- The function `cppimg::swap(x0, x1)` applied to one data member (read by
`get`, assigned by `set`) of the objects `x0` and `x1`. -/
def swap {α : Type} (get : Image → α) (set : α → Image → Image)
    (s : Nat → Image) (x0 x1 : Nat) : Nat → Image :=
  let t := get (s x0)
  let s1 := Function.update s x0 (set (get (s x1)) (s x0))
  Function.update s1 x1 (set t (s1 x1))

/-- The member function `Image<T>::swap(rhs)` called on object `this`. -/
def Image.swap {T : Type} (st : State T) (this rhs : Nat) : State T :=
  let s := st.objs
  let s := cppimg.swap (fun a => a.width_) (fun v a => { a with width_ := v }) s this rhs
  let s := cppimg.swap (fun a => a.height_) (fun v a => { a with height_ := v }) s this rhs
  let s := cppimg.swap (fun a => a.channels_) (fun v a => { a with channels_ := v }) s this rhs
  let s := cppimg.swap (fun a => a.data_) (fun v a => { a with data_ := v }) s this rhs
  { st with objs := s }

/-! ## Helper functions -/

/-- The function `minimum(x0, x1)`, for any sample type with a `<`. -/
def minimum {T : Type} [LT T] [∀ a b : T, Decidable (a < b)] (x0 x1 : T) : T :=
  if x0 < x1 then x0 else x1

/-- The function `maximum(x0, x1)`, for any sample type with a `<`. -/
def maximum {T : Type} [LT T] [∀ a b : T, Decidable (a < b)] (x0 x1 : T) : T :=
  if x0 < x1 then x1 else x0

/-- The function `clamp(x, minv, maxv)`. -/
def clamp {T : Type} [LT T] [∀ a b : T, Decidable (a < b)] (x minv maxv : T) : T :=
  let x := maximum x minv
  minimum x maxv

/-- A floating-point value as far as its comparisons go: a number, or NaN. -/
inductive WithNaN (α : Type) where
  | num (v : α)
  | nan
deriving DecidableEq

/-- The comparison `a < b` of floating-point values: false as soon as one of
them is NaN. -/
def WithNaN.lt {α : Type} [LT α] : WithNaN α → WithNaN α → Prop
  | .num x, .num y => x < y
  | _, _ => False

/-- The comparison `a <= b` of floating-point values: false as soon as one of
them is NaN. -/
def WithNaN.le {α : Type} [LE α] : WithNaN α → WithNaN α → Prop
  | .num x, .num y => x ≤ y
  | _, _ => False

instance WithNaN.instLT {α : Type} [LT α] : LT (WithNaN α) := ⟨WithNaN.lt⟩

instance WithNaN.instLE {α : Type} [LE α] : LE (WithNaN α) := ⟨WithNaN.le⟩

instance WithNaN.decidableLT {α : Type} [LT α] [∀ a b : α, Decidable (a < b)] :
    ∀ a b : WithNaN α, Decidable (a < b)
  | .num x, .num y => inferInstanceAs (Decidable (x < y))
  | .num _, .nan => isFalse (fun h => h)
  | .nan, .num _ => isFalse (fun h => h)
  | .nan, .nan => isFalse (fun h => h)

/-! ## Colour space -/

/-- What the converters need of the sample type `T`: the value of a sample in
floating-point arithmetic and `static_cast<T>`. -/
structure SampleType (T : Type) where
  toF : T → ℚ
  cast : ℚ → T

/-- Samples that are exact numbers: both conversions are the identity. -/
def SampleType.exact : SampleType ℚ := ⟨id, id⟩

/-- Samples of type `u8`, held as naturals below 256: a sample converts to its
value, and `static_cast<u8>` drops the fraction (the conversion is undefined
outside `[0, 256)`; there the truncated value is reduced modulo 256). -/
def SampleType.u8 : SampleType Nat :=
  ⟨fun n => (n : ℚ), fun q => ((if 0 ≤ q then ⌊q⌋ else ⌈q⌉) % 256).toNat⟩

/-- The function `RGBToYCbCr(ybr, rgb)`. -/
def RGBToYCbCr {T : Type} (S : SampleType T) (ybr rgb : Ptr) (m : Mem T) : Mem T :=
  let m := m.store (ybr.add 0) (S.cast (0.257 * S.toF (m (rgb.add 0))
    + 0.504 * S.toF (m (rgb.add 1)) + 0.098 * S.toF (m (rgb.add 2)) + 16))
  let m := m.store (ybr.add 1) (S.cast (-0.148 * S.toF (m (rgb.add 0))
    - 0.291 * S.toF (m (rgb.add 1)) + 0.439 * S.toF (m (rgb.add 2)) + 128))
  let m := m.store (ybr.add 2) (S.cast (0.439 * S.toF (m (rgb.add 0))
    - 0.368 * S.toF (m (rgb.add 1)) - 0.071 * S.toF (m (rgb.add 2)) + 128))
  m

/-- The function `YCbCrToRGB(rgb, ybr)`. -/
def YCbCrToRGB {T : Type} (S : SampleType T) (rgb ybr : Ptr) (m : Mem T) : Mem T :=
  let y : ℚ := if 16 < S.toF (m (ybr.add 0)) then 1.164 * (S.toF (m (ybr.add 0)) - 16) else 0
  let Cb : ℚ := S.toF (m (ybr.add 1)) - 128
  let Cr : ℚ := S.toF (m (ybr.add 2)) - 128
  let m := m.store (rgb.add 0) (S.cast (y + 1.596 * Cb))
  let m := m.store (rgb.add 1) (S.cast (y - 0.391 * Cr - 0.813 * Cr))
  let m := m.store (rgb.add 2) (S.cast (y + 2.018 * Cr))
  m

/-- The function `RGBToYUV(yuv, rgb)`. -/
def RGBToYUV {T : Type} (S : SampleType T) (yuv rgb : Ptr) (m : Mem T) : Mem T :=
  let m := m.store (yuv.add 0) (S.cast (0.299 * S.toF (m (rgb.add 0))
    + 0.587 * S.toF (m (rgb.add 1)) + 0.114 * S.toF (m (rgb.add 2))))
  let m := m.store (yuv.add 1) (S.cast (-0.169 * S.toF (m (rgb.add 0))
    - 0.331 * S.toF (m (rgb.add 1)) + 0.500 * S.toF (m (rgb.add 2))))
  let m := m.store (yuv.add 2) (S.cast (0.500 * S.toF (m (rgb.add 0))
    - 0.419 * S.toF (m (rgb.add 1)) - 0.081 * S.toF (m (rgb.add 2))))
  m

/-- The function `YUVToRGB(rgb, yuv)`.  Its body reads `ybr[0]`, a name that
is neither a parameter nor a local of the function; the pointer that name
denotes is the extra argument `ybr`. -/
def YUVToRGB {T : Type} (S : SampleType T) (ybr : Ptr) (rgb yuv : Ptr) (m : Mem T) : Mem T :=
  let y : ℚ := S.toF (m (ybr.add 0))
  let m := m.store (rgb.add 0) (S.cast (y + 1.402 * S.toF (m (yuv.add 2))))
  let m := m.store (rgb.add 1) (S.cast (y - 0.344 * S.toF (m (yuv.add 1))
    - 0.714 * S.toF (m (yuv.add 2))))
  let m := m.store (rgb.add 2) (S.cast (y + 1.772 * S.toF (m (yuv.add 1))))
  m

/-- The three samples `p[0], p[1], p[2]`. -/
def triplet {T : Type} (m : Mem T) (p : Ptr) : T × T × T :=
  (m (p.add 0), m (p.add 1), m (p.add 2))

/-- A memory that holds the three given samples at `p[0], p[1], p[2]`. -/
def withTriplet {T : Type} (m : Mem T) (p : Ptr) (v : T × T × T) : Mem T :=
  ((m.store (p.add 0) v.1).store (p.add 1) v.2.1).store (p.add 2) v.2.2

/-- The triplets at `p` and `q` do not overlap. -/
def Disjoint3 (p q : Ptr) : Prop :=
  p.block ≠ q.block ∨ p.off + 3 ≤ q.off ∨ q.off + 3 ≤ p.off

/-! ## Machine integers: facts -/

theorem wrap32_eq_self {z : Int} (h1 : -2147483648 ≤ z) (h2 : z ≤ 2147483647) :
    wrap32 z = z := by
  unfold wrap32
  omega

theorem wrap32_modEq (z : Int) : wrap32 z ≡ z [ZMOD 4294967296] := by
  unfold wrap32
  have h : (z + 2147483648) % 4294967296 ≡ z + 2147483648 [ZMOD 4294967296] :=
    Int.mod_modEq _ _
  simpa using h.sub_right 2147483648

theorem wrap32_congr {a b : Int} (h : a ≡ b [ZMOD 4294967296]) : wrap32 a = wrap32 b := by
  unfold wrap32
  have h2 : (a + 2147483648) % 4294967296 = (b + 2147483648) % 4294967296 :=
    h.add_right 2147483648
  rw [h2]

/-- The `s32` product of three values is the reduction of the exact product. -/
theorem mul32_mul32 (w h c : Int) : mul32 (mul32 w h) c = wrap32 (w * h * c) := by
  unfold mul32
  exact wrap32_congr ((wrap32_modEq (w * h)).mul_right c)

/-- The `s32` expression `(y*w+x)*c` is the reduction of its exact value. -/
theorem index32 (w c x y : Int) :
    mul32 (add32 (mul32 y w) x) c = wrap32 ((y * w + x) * c) := by
  unfold mul32 add32
  apply wrap32_congr
  have h1 : wrap32 (y * w) + x ≡ y * w + x [ZMOD 4294967296] :=
    (wrap32_modEq (y * w)).add_right x
  exact ((wrap32_modEq _).trans h1).mul_right c

/-- When the exact element count fits in an `s32`, the `s32` product is it. -/
theorem mul32_mul32_of_fits (w h c : Int) (h1 : -2147483648 ≤ w * h * c)
    (h2 : w * h * c ≤ 2147483647) : mul32 (mul32 w h) c = w * h * c := by
  rw [mul32_mul32, wrap32_eq_self h1 h2]

/-- Inside the image, the exact pixel index lies in `[0, w*h*c)` scaled by `c`:
`0 ≤ (y*w+x)*c` and `(y*w+x)*c + c ≤ w*h*c`. -/
theorem pixel_index_bounds (w h c x y : Int) (hc : 0 ≤ c) (hx0 : 0 ≤ x) (hx : x < w)
    (hy0 : 0 ≤ y) (hy : y < h) :
    0 ≤ (y * w + x) * c ∧ (y * w + x) * c + c ≤ w * h * c := by
  have hw : 0 ≤ w := by omega
  have h1 : 0 ≤ y * w := Int.mul_nonneg hy0 hw
  have h2 : (y + 1) * w ≤ h * w := Int.mul_le_mul_of_nonneg_right (by omega) hw
  have h3 : y * w + x + 1 ≤ w * h := by
    have : (y + 1) * w = y * w + w := by ring
    have : h * w = w * h := by ring
    omega
  constructor
  · exact Int.mul_nonneg (by omega) hc
  · have h4 : (y * w + x + 1) * c ≤ (w * h) * c := Int.mul_le_mul_of_nonneg_right h3 hc
    have : (y * w + x + 1) * c = (y * w + x) * c + c := by ring
    omega

/-! ## Pixel access -/

theorem Mem.store_same {T : Type} (m : Mem T) (p : Ptr) (v : T) : (m.store p v) p = v := by
  simp [Mem.store]

theorem Mem.store_other {T : Type} (m : Mem T) (p q : Ptr) (v : T) (h : q ≠ p) :
    (m.store p v) q = m q := by
  simp [Mem.store, h]

/-- The linear accessor passes its assertion exactly on `0 ≤ i < w*h*c` (the
`s32` product). -/
theorem Image.operator_index_ok_iff (a : Image) (i : Int) :
    (∃ r, a.operator_index i = .ok r) ↔
      (0 ≤ i ∧ i < mul32 (mul32 a.width_ a.height_) a.channels_) := by
  unfold Image.operator_index
  split <;> simp_all

/-- The 2D accessor passes its assertions exactly on `0 ≤ x < w`, `0 ≤ y < h`. -/
theorem Image.operator_call_ok_iff (a : Image) (x y : Int) :
    (∃ r, a.operator_call x y = .ok r) ↔
      ((0 ≤ x ∧ x < a.width_) ∧ (0 ≤ y ∧ y < a.height_)) := by
  unfold Image.operator_call
  split
  · split <;> simp_all
  · simp_all

theorem Image.operator_index_reject (a : Image) (i : Int)
    (h : ¬ (0 ≤ i ∧ i < mul32 (mul32 a.width_ a.height_) a.channels_)) :
    a.operator_index i = .error .assertion := by
  unfold Image.operator_index
  rw [if_neg h]

theorem Image.operator_call_reject (a : Image) (x y : Int)
    (h : ¬ ((0 ≤ x ∧ x < a.width_) ∧ (0 ≤ y ∧ y < a.height_))) :
    a.operator_call x y = .error .assertion := by
  unfold Image.operator_call
  split
  · split
    · simp_all
    · rfl
  · rfl


/-- With a zero dimension the linear accessor rejects every index. -/
theorem Image.operator_index_reject_of_zero (a : Image)
    (h : a.width_ = 0 ∨ a.height_ = 0 ∨ a.channels_ = 0) (i : Int) :
    a.operator_index i = .error .assertion := by
  apply Image.operator_index_reject
  have h0 : a.width_ * a.height_ * a.channels_ = 0 := by
    rcases h with h | h | h <;> simp [h]
  rw [mul32_mul32, h0]
  have : wrap32 0 = 0 := by decide
  omega

/-- With zero width or zero height the 2D accessor rejects every pixel. -/
theorem Image.operator_call_reject_of_zero (a : Image)
    (h : a.width_ = 0 ∨ a.height_ = 0) (x y : Int) :
    a.operator_call x y = .error .assertion := by
  apply Image.operator_call_reject
  rcases h with h | h <;> rw [h] <;> omega

/-- C1 (amended): for an image with at least one channel whose element count
`w*h*c` fits in an `s32`, and a pixel `0 ≤ x < w`, `0 ≤ y < h`, the 2D accessor
`operator()(x,y)` and the linear accessor `operator[]((y*w+x)*c)` both pass
their assertions and return the same reference `data_ + (y*w+x)*c`; a value
stored through it is the value read through it, and the store changes no
other element. -/
theorem C1_accessors_alias (a : Image) (x y : Int) (hc : 1 ≤ a.channels_)
    (hfit : a.width_ * a.height_ * a.channels_ ≤ S32_MAX)
    (hx : 0 ≤ x ∧ x < a.width_) (hy : 0 ≤ y ∧ y < a.height_) :
    ∃ r, a.operator_call x y = .ok r ∧
      a.operator_index ((y * a.width_ + x) * a.channels_) = .ok r ∧
      r = a.data_.add ((y * a.width_ + x) * a.channels_) ∧
      ∀ (T : Type) (m : Mem T) (v : T),
        (m.store r v) r = v ∧ ∀ q, q ≠ r → (m.store r v) q = m q := by
  unfold S32_MAX at hfit
  obtain ⟨hb0, hb1⟩ :=
    pixel_index_bounds a.width_ a.height_ a.channels_ x y (by omega) hx.1 hx.2 hy.1 hy.2
  have hidx : mul32 (add32 (mul32 y a.width_) x) a.channels_
      = (y * a.width_ + x) * a.channels_ := by
    rw [index32, wrap32_eq_self (by omega) (by omega)]
  have hcnt : mul32 (mul32 a.width_ a.height_) a.channels_
      = a.width_ * a.height_ * a.channels_ :=
    mul32_mul32_of_fits _ _ _ (by omega) hfit
  refine ⟨a.data_.add ((y * a.width_ + x) * a.channels_), ?_, ?_, rfl, ?_⟩
  · unfold Image.operator_call
    rw [if_pos hx, if_pos hy, hidx]
  · unfold Image.operator_index
    rw [hcnt, if_pos ⟨hb0, by omega⟩]
  · intro T m v
    exact ⟨Mem.store_same m _ v, fun q hq => Mem.store_other m _ q v hq⟩

/-- C1, witness: the pixel `(1,1)` of a `2 x 2` image with three channels. -/
theorem C1_accessors_alias_witness :
    (1 : Int) ≤ (⟨2, 2, 3, ⟨some 0, 0⟩⟩ : Image).channels_ ∧
    ∃ r, (⟨2, 2, 3, ⟨some 0, 0⟩⟩ : Image).operator_call 1 1 = .ok r ∧
      (⟨2, 2, 3, ⟨some 0, 0⟩⟩ : Image).operator_index ((1 * 2 + 1) * 3) = .ok r ∧
      r = (⟨some 0, 0⟩ : Ptr).add ((1 * 2 + 1) * 3) ∧
      ∀ (T : Type) (m : Mem T) (v : T),
        (m.store r v) r = v ∧ ∀ q, q ≠ r → (m.store r v) q = m q :=
  ⟨by decide,
   C1_accessors_alias ⟨2, 2, 3, ⟨some 0, 0⟩⟩ 1 1 (by decide) (by decide) (by decide)
     (by decide)⟩

/-- C1, counterexample: on a `1 x 1` image without channels the 2D accessor
returns a reference for pixel `(0,0)` while the linear accessor rejects index
`(0*1+0)*0`; and on a `65536 x 65536` image with one channel, whose element
count does not fit in an `s32`, the 2D accessor returns a reference for pixel
`(0,0)` while the linear accessor rejects index `(0*65536+0)*1`. -/
theorem C1_counterexample :
    ((⟨1, 1, 0, ⟨some 0, 0⟩⟩ : Image).operator_call 0 0 = .ok ⟨some 0, 0⟩ ∧
      (⟨1, 1, 0, ⟨some 0, 0⟩⟩ : Image).operator_index ((0 * 1 + 0) * 0)
        = .error .assertion) ∧
    ((⟨65536, 65536, 1, ⟨some 0, 0⟩⟩ : Image).operator_call 0 0 = .ok ⟨some 0, 0⟩ ∧
      (⟨65536, 65536, 1, ⟨some 0, 0⟩⟩ : Image).operator_index ((0 * 65536 + 0) * 1)
        = .error .assertion) :=
  ⟨⟨rfl, rfl⟩, ⟨rfl, rfl⟩⟩

/-- C2 (code defect): `Image(1,1,0)` succeeds and yields a buffer whose block
holds zero bytes; every linear access is rejected, yet `operator()(0,0)` passes
its assertions and returns the reference `data_[0]`, which lies outside the
storage. -/
theorem C2_channels_zero_call_accepted (T : Type) (m : Mem T) :
    ∃ h a, Image.Image_dims 4 (Heap.empty m) 1 1 0 = .ok (h, a) ∧
      h.blockBytes a.data_ = some 0 ∧
      (∀ i, a.operator_index i = .error .assertion) ∧
      a.operator_call 0 0 = .ok a.data_ ∧
      h.valid 4 a.data_ 4 = false := by
  refine ⟨_, _, rfl, rfl, ?_, rfl, rfl⟩
  intro i
  exact Image.operator_index_reject_of_zero _ (Or.inr (Or.inr rfl)) i

/-- C3: for an image whose element count `w*h*c` fits in an `s32`,
`operator[](i)` passes its assertion iff `0 ≤ i < w*h*c`, and `operator()(x,y)`
passes its assertions iff `0 ≤ x < w` and `0 ≤ y < h`; `operator()(w,0)`,
`operator()(-1,0)` and `operator[](w*h*c)` fail an assertion. -/
theorem C3_access_iff_precondition (a : Image)
    (hlo : S32_MIN ≤ a.width_ * a.height_ * a.channels_)
    (hhi : a.width_ * a.height_ * a.channels_ ≤ S32_MAX) :
    (∀ i, (∃ r, a.operator_index i = .ok r) ↔
        (0 ≤ i ∧ i < a.width_ * a.height_ * a.channels_)) ∧
    (∀ x y, (∃ r, a.operator_call x y = .ok r) ↔
        ((0 ≤ x ∧ x < a.width_) ∧ (0 ≤ y ∧ y < a.height_))) ∧
    a.operator_call a.width_ 0 = .error .assertion ∧
    a.operator_call (-1) 0 = .error .assertion ∧
    a.operator_index (a.width_ * a.height_ * a.channels_) = .error .assertion := by
  have hcnt := mul32_mul32_of_fits a.width_ a.height_ a.channels_ hlo hhi
  refine ⟨?_, ?_, ?_, ?_, ?_⟩
  · intro i
    rw [Image.operator_index_ok_iff, hcnt]
  · intro x y
    exact Image.operator_call_ok_iff a x y
  · exact Image.operator_call_reject a _ _ (by omega)
  · exact Image.operator_call_reject a _ _ (by omega)
  · exact Image.operator_index_reject a _ (by rw [hcnt]; omega)

/-- C3, witness: a `2 x 2` image with three channels. -/
theorem C3_access_iff_precondition_witness :
    (S32_MIN ≤ (2 : Int) * 2 * 3 ∧ (2 : Int) * 2 * 3 ≤ S32_MAX) ∧
    ((∀ i, (∃ r, (⟨2, 2, 3, ⟨some 0, 0⟩⟩ : Image).operator_index i = .ok r) ↔
        (0 ≤ i ∧ i < 2 * 2 * 3)) ∧
    (∀ x y, (∃ r, (⟨2, 2, 3, ⟨some 0, 0⟩⟩ : Image).operator_call x y = .ok r) ↔
        ((0 ≤ x ∧ x < 2) ∧ (0 ≤ y ∧ y < 2))) ∧
    (⟨2, 2, 3, ⟨some 0, 0⟩⟩ : Image).operator_call 2 0 = .error .assertion ∧
    (⟨2, 2, 3, ⟨some 0, 0⟩⟩ : Image).operator_call (-1) 0 = .error .assertion ∧
    (⟨2, 2, 3, ⟨some 0, 0⟩⟩ : Image).operator_index (2 * 2 * 3) = .error .assertion) :=
  ⟨by decide, C3_access_iff_precondition ⟨2, 2, 3, ⟨some 0, 0⟩⟩ (by decide) (by decide)⟩


/-! ## Construction -/

theorem toSizeT_of_nonneg {z : Int} (h0 : 0 ≤ z) (h1 : z < 18446744073709551616) :
    toSizeT z = z.toNat := by
  unfold toSizeT
  rw [Int.emod_eq_of_lt h0 h1]

/-- The byte count of an image whose element count fits in an `s32`. -/
theorem Image.byteCount_of_fits (sz : Nat) (w h c : Int) (hsz : sz ≤ 4294967296)
    (h0 : 0 ≤ w * h * c) (h1 : w * h * c ≤ 2147483647) :
    Image.byteCount sz w h c = (w * h * c).toNat * sz := by
  unfold Image.byteCount
  rw [mul32_mul32_of_fits w h c (by omega) h1, toSizeT_of_nonneg h0 (by omega)]
  unfold mulSizeT
  apply Nat.mod_eq_of_lt
  have hn : (w * h * c).toNat ≤ 2147483647 := by omega
  calc (w * h * c).toNat * sz ≤ 2147483647 * 4294967296 := Nat.mul_le_mul hn hsz
    _ < 18446744073709551616 := by norm_num

theorem CPPIMG_MALLOC_blockBytes {T : Type} (h : Heap T) (n : Nat) (i : Int) :
    (CPPIMG_MALLOC h n).1.blockBytes ((CPPIMG_MALLOC h n).2.add i) = some n := by
  simp [CPPIMG_MALLOC, Heap.blockBytes, Ptr.add]

theorem CPPIMG_MALLOC_fresh {T : Type} (h : Heap T) (n : Nat) (i : Int) :
    h.blockBytes ((CPPIMG_MALLOC h n).2.add i) = none := by
  simp [CPPIMG_MALLOC, Heap.blockBytes, Ptr.add]

/-- A block that is allocated before `CPPIMG_MALLOC` keeps its size. -/
theorem CPPIMG_MALLOC_blockBytes_old {T : Type} (h : Heap T) (n : Nat) (p : Ptr) (k : Nat)
    (hp : h.blockBytes p = some k) : (CPPIMG_MALLOC h n).1.blockBytes p = some k := by
  unfold Heap.blockBytes at hp ⊢
  cases hb : p.block with
  | none => simp [hb] at hp
  | some b =>
    simp only [hb] at hp ⊢
    have hlt : b < h.blocks.length := by
      by_contra hge
      rw [List.getElem?_eq_none (by omega)] at hp
      cases hp
    simp only [CPPIMG_MALLOC]
    rw [List.getElem?_append_left hlt]
    exact hp

/-- Element `i` of a block of `n * sz` bytes is inside it iff `0 ≤ i < n`. -/
theorem Heap.valid_element_iff {T : Type} (h : Heap T) (sz : Nat) (hsz : 0 < sz) (p : Ptr)
    (n : Nat) (hb : h.blockBytes p = some (n * sz)) :
    h.valid sz p sz = true ↔ (0 ≤ p.off ∧ p.off < n) := by
  unfold Heap.valid
  rw [hb]
  simp only [Bool.and_eq_true, decide_eq_true_eq]
  have key : p.off.toNat * sz + sz ≤ n * sz ↔ p.off.toNat + 1 ≤ n := by
    rw [← Nat.succ_mul]
    constructor
    · intro hle
      exact Nat.le_of_mul_le_mul_right hle hsz
    · intro hle
      exact Nat.mul_le_mul_right sz hle
  rw [key]
  omega

/-- C4 (amended): for `w, h, c ≥ 0` whose product `w*h*c` fits in an `s32`
(and a sample size of at most `2^32` bytes), `Image(w,h,c)` succeeds; the
buffer has `width() = w`, `height() = h`, `channels() = c`; its storage is a
fresh block of `w*h*c*sizeof(T)` bytes, that is exactly the elements
`0 ≤ i < w*h*c`, and no sample is written.  If one of `w, h, c` is negative the
constructor fails an assertion. -/
theorem C4_constructor (T : Type) (sz : Nat) (h : Heap T) (w hh c : Int)
    (hsz0 : 0 < sz) (hsz : sz ≤ 4294967296) :
    (0 ≤ w → 0 ≤ hh → 0 ≤ c → w * hh * c ≤ S32_MAX →
      ∃ h1 a, Image.Image_dims sz h w hh c = .ok (h1, a) ∧
        a.width = w ∧ a.height = hh ∧ a.channels = c ∧
        h1.blockBytes a.data_ = some ((w * hh * c).toNat * sz) ∧
        h.blockBytes a.data_ = none ∧
        (∀ i : Int, h1.valid sz (a.data_.add i) sz = true ↔ (0 ≤ i ∧ i < w * hh * c)) ∧
        h1.mem = h.mem) ∧
    ((w < 0 ∨ hh < 0 ∨ c < 0) → Image.Image_dims sz h w hh c = .error .assertion) := by
  constructor
  · intro hw hh0 hc hfit
    unfold S32_MAX at hfit
    have hprod : 0 ≤ w * hh * c := Int.mul_nonneg (Int.mul_nonneg hw hh0) hc
    have hbytes := Image.byteCount_of_fits sz w hh c hsz hprod hfit
    have hblock : ∀ i : Int,
        (CPPIMG_MALLOC h (Image.byteCount sz w hh c)).1.blockBytes
          ((CPPIMG_MALLOC h (Image.byteCount sz w hh c)).2.add i)
          = some ((w * hh * c).toNat * sz) := fun i =>
      (CPPIMG_MALLOC_blockBytes h (Image.byteCount sz w hh c) i).trans (congrArg some hbytes)
    refine ⟨(CPPIMG_MALLOC h (Image.byteCount sz w hh c)).1,
      ⟨w, hh, c, (CPPIMG_MALLOC h (Image.byteCount sz w hh c)).2⟩, ?_, rfl, rfl, rfl,
      ?_, ?_, ?_, rfl⟩
    · unfold Image.Image_dims
      rw [if_pos hw, if_pos hh0, if_pos hc]
    · simpa [Ptr.add, CPPIMG_MALLOC] using hblock 0
    · simpa [Ptr.add, CPPIMG_MALLOC] using
        CPPIMG_MALLOC_fresh h (Image.byteCount sz w hh c) 0
    · intro i
      rw [Heap.valid_element_iff _ sz hsz0 _ _ (hblock i)]
      simp only [Ptr.add, CPPIMG_MALLOC]
      omega
  · intro hneg
    unfold Image.Image_dims
    split
    · split
      · split
        · omega
        · rfl
      · rfl
    · rfl

/-- C4, witness: `Image(2,2,3)` with four-byte samples on an empty heap. -/
theorem C4_constructor_witness :
    (0 < 4 ∧ 4 ≤ 4294967296) ∧
    ∃ h1 a, Image.Image_dims 4 (Heap.empty (fun _ => (0 : Nat))) 2 2 3 = .ok (h1, a) ∧
      a.width = 2 ∧ a.height = 2 ∧ a.channels = 3 ∧
      h1.blockBytes a.data_ = some (((2 : Int) * 2 * 3).toNat * 4) ∧
      (Heap.empty (fun _ => (0 : Nat))).blockBytes a.data_ = none ∧
      (∀ i : Int, h1.valid 4 (a.data_.add i) 4 = true ↔ (0 ≤ i ∧ i < 2 * 2 * 3)) ∧
      h1.mem = (Heap.empty (fun _ => (0 : Nat))).mem :=
  ⟨by decide,
   (C4_constructor Nat 4 (Heap.empty (fun _ => 0)) 2 2 3 (by decide) (by decide)).1
     (by decide) (by decide) (by decide) (by decide)⟩

/-- C4, counterexample: `Image(65536,65536,1)` with four-byte samples passes
its assertions, but the `s32` product of the dimensions is `0`: the storage is
a block of zero bytes, not of `65536*65536*1*4` bytes. -/
theorem C4_counterexample :
    ∃ h1 a, Image.Image_dims 4 (Heap.empty (fun _ => (0 : Nat))) 65536 65536 1 = .ok (h1, a) ∧
      a.width = 65536 ∧ a.height = 65536 ∧ a.channels = 1 ∧
      h1.blockBytes a.data_ = some 0 ∧
      h1.valid 4 (a.data_.add 0) 4 = false ∧
      (0 : Nat) ≠ 65536 * 65536 * 1 * 4 :=
  ⟨_, _, rfl, rfl, rfl, rfl, rfl, rfl, by decide⟩

/-- C8: `Image()` and `Image(0,0,0)` both succeed with
`width() = height() = channels() = 0`, and on either buffer every 2D access
and every linear access fails its assertion. -/
theorem C8_empty_images (T : Type) (sz : Nat) (h : Heap T) :
    (Image.Image_default.width = 0 ∧ Image.Image_default.height = 0 ∧
      Image.Image_default.channels = 0 ∧
      (∀ x y, Image.Image_default.operator_call x y = .error .assertion) ∧
      (∀ i, Image.Image_default.operator_index i = .error .assertion)) ∧
    ∃ h1 a, Image.Image_dims sz h 0 0 0 = .ok (h1, a) ∧
      a.width = 0 ∧ a.height = 0 ∧ a.channels = 0 ∧
      (∀ x y, a.operator_call x y = .error .assertion) ∧
      (∀ i, a.operator_index i = .error .assertion) := by
  refine ⟨⟨rfl, rfl, rfl, ?_, ?_⟩, _, _, rfl, rfl, rfl, rfl, ?_, ?_⟩
  · exact Image.operator_call_reject_of_zero _ (Or.inl rfl)
  · exact Image.operator_index_reject_of_zero _ (Or.inl rfl)
  · exact Image.operator_call_reject_of_zero _ (Or.inl rfl)
  · exact Image.operator_index_reject_of_zero _ (Or.inl rfl)


/-! ## Exchange -/

/-- The objects after `Image<T>::swap`: the two images trade places, every
other object is left alone (also when `this` and `rhs` are one object). -/
theorem Image.swap_objs {T : Type} (st : State T) (this rhs o : Nat) :
    (Image.swap st this rhs).objs o =
      if o = this then st.objs rhs else if o = rhs then st.objs this else st.objs o := by
  unfold Image.swap cppimg.swap
  by_cases h1 : this = rhs
  · subst h1
    by_cases h2 : o = this
    · subst h2
      simp
    · simp [Function.update, h2]
  · have h1s : ¬ rhs = this := fun e => h1 e.symm
    by_cases h2 : o = this
    · subst h2
      simp [Function.update, h1, h1s]
    · by_cases h3 : o = rhs
      · subst h3
        simp [Function.update, h1, h1s]
      · simp [Function.update, h1, h1s, h2, h3]

/-- C6: after `a.swap(b)` the object `a` holds exactly `b`'s former width,
height, channels and storage, `b` holds exactly `a`'s, every other object and
the whole sample memory are unchanged; the operation is total. -/
theorem C6_swap_exchanges (T : Type) (st : State T) (a b : Nat) :
    (Image.swap st a b).objs a = st.objs b ∧
    (Image.swap st a b).objs b = st.objs a ∧
    (∀ o, o ≠ a → o ≠ b → (Image.swap st a b).objs o = st.objs o) ∧
    (Image.swap st a b).heap = st.heap ∧
    (∀ i : Int, (Image.sample (Image.swap st a b).heap ((Image.swap st a b).objs a) i : T)
        = Image.sample st.heap (st.objs b) i) ∧
    (∀ i : Int, (Image.sample (Image.swap st a b).heap ((Image.swap st a b).objs b) i : T)
        = Image.sample st.heap (st.objs a) i) := by
  have ha : (Image.swap st a b).objs a = st.objs b := by
    rw [Image.swap_objs, if_pos rfl]
  have hb : (Image.swap st a b).objs b = st.objs a := by
    rw [Image.swap_objs]
    by_cases h : b = a
    · rw [if_pos h, h]
    · rw [if_neg h, if_pos rfl]
  have hh : (Image.swap st a b).heap = st.heap := rfl
  refine ⟨ha, hb, ?_, hh, ?_, ?_⟩
  · intro o h1 h2
    rw [Image.swap_objs, if_neg h1, if_neg h2]
  · intro i
    rw [ha, hh]
  · intro i
    rw [hb, hh]

/-- C7: `a.swap(b)` performed twice restores the whole state: both images
have their original width, height, channels and storage again. -/
theorem C7_swap_involutive (T : Type) (st : State T) (a b : Nat) :
    Image.swap (Image.swap st a b) a b = st := by
  have hobjs : (Image.swap (Image.swap st a b) a b).objs = st.objs := by
    funext o
    rw [Image.swap_objs, Image.swap_objs, Image.swap_objs, Image.swap_objs]
    by_cases h1 : o = a
    · subst h1
      by_cases h2 : b = o
      · subst h2
        simp
      · simp [h2]
    · by_cases h2 : o = b
      · subst h2
        simp [h1]
      · simp [h1, h2]
  have hheap : (Image.swap (Image.swap st a b) a b).heap = st.heap := rfl
  cases st with
  | mk objs heap =>
    cases hs : Image.swap (Image.swap (State.mk objs heap) a b) a b with
    | mk objs2 heap2 =>
      rw [hs] at hobjs hheap
      simp only at hobjs hheap
      rw [hobjs, hheap]


/-! ## Copy construction -/

/-- A pointer that is valid for some byte count points into an allocated
block. -/
theorem Heap.block_lt_of_valid {T : Type} (h : Heap T) (sz : Nat) (p : Ptr) (n : Nat)
    (hv : h.valid sz p n = true) : ∃ b, p.block = some b ∧ b < h.blocks.length := by
  unfold Heap.valid Heap.blockBytes at hv
  cases hb : p.block with
  | none => simp [hb] at hv
  | some b =>
    refine ⟨b, rfl, ?_⟩
    by_contra hge
    simp [hb, List.getElem?_eq_none (Nat.le_of_not_lt hge)] at hv

/-- Validity of an access survives an allocation. -/
theorem Heap.valid_MALLOC_old {T : Type} (h : Heap T) (sz : Nat) (p : Ptr) (n k : Nat)
    (hv : h.valid sz p n = true) : (CPPIMG_MALLOC h k).1.valid sz p n = true := by
  unfold Heap.valid at hv ⊢
  cases hb : h.blockBytes p with
  | none => simp [hb] at hv
  | some bytes =>
    rw [CPPIMG_MALLOC_blockBytes_old h k p bytes hb]
    simpa [hb] using hv

/-- The local `size` of the copy constructor when the byte count fits in an
`s32`. -/
theorem Image.copySize_of_fits (sz : Nat) (a : Image) (hsz : sz ≤ 4294967296)
    (h0 : 0 ≤ a.width_ * a.height_ * a.channels_)
    (h1 : a.width_ * a.height_ * a.channels_ ≤ 2147483647)
    (hfit : (a.width_ * a.height_ * a.channels_).toNat * sz ≤ 2147483647) :
    toSizeT (Image.copySize sz a) = (a.width_ * a.height_ * a.channels_).toNat * sz := by
  unfold Image.copySize narrow32
  rw [Image.byteCount_of_fits sz _ _ _ hsz h0 h1, wrap32_eq_self (by omega) (by omega),
    toSizeT_of_nonneg (by omega) (by omega)]
  omega


theorem CPPIMG_MALLOC_blockBytes_self {T : Type} (h : Heap T) (n : Nat) :
    (CPPIMG_MALLOC h n).1.blockBytes (CPPIMG_MALLOC h n).2 = some n := by
  simp [CPPIMG_MALLOC, Heap.blockBytes]

theorem CPPIMG_MALLOC_fresh_self {T : Type} (h : Heap T) (n : Nat) :
    h.blockBytes (CPPIMG_MALLOC h n).2 = none := by
  simp [CPPIMG_MALLOC, Heap.blockBytes]

/-- The copy constructor returns the copy when its `memcpy` succeeds (`N` is
the byte count handed to the allocator and to `memcpy`). -/
theorem Image.Image_copy_of_ok {T : Type} (sz : Nat) (h h2 : Heap T) (rhs : Image) (N : Nat)
    (hN : toSizeT (Image.copySize sz rhs) = N)
    (hm : memcpy sz (CPPIMG_MALLOC h N).1 (CPPIMG_MALLOC h N).2 rhs.data_ N = .ok h2) :
    Image.Image_copy sz h rhs = .ok (h2, ⟨rhs.width_, rhs.height_, rhs.channels_,
      (CPPIMG_MALLOC h N).2⟩) := by
  subst hN
  unfold Image.Image_copy
  simp only []
  rw [hm]
  rfl

/-- The copy constructor fails when its `memcpy` fails. -/
theorem Image.Image_copy_of_error {T : Type} (sz : Nat) (h : Heap T) (rhs : Image) (e : Failure)
    (N : Nat) (hN : toSizeT (Image.copySize sz rhs) = N)
    (hm : memcpy sz (CPPIMG_MALLOC h N).1 (CPPIMG_MALLOC h N).2 rhs.data_ N = .error e) :
    Image.Image_copy sz h rhs = .error e := by
  subst hN
  unfold Image.Image_copy
  simp only []
  rw [hm]
  rfl

theorem memcpy_zero {T : Type} (sz : Nat) (h : Heap T) (dst src : Ptr) :
    memcpy sz h dst src 0 = .ok h := by
  unfold memcpy
  rw [if_pos rfl]

/-- A `memcpy` between two valid ranges succeeds; it leaves the allocator
state alone and overwrites exactly the destination elements. -/
theorem memcpy_ok {T : Type} (sz : Nat) (h : Heap T) (dst src : Ptr) (n : Nat) (hn : n ≠ 0)
    (hd : h.valid sz dst n = true) (hs : h.valid sz src n = true) :
    ∃ h2, memcpy sz h dst src n = .ok h2 ∧ h2.blocks = h.blocks ∧
      ∀ q : Ptr, h2.mem q =
        if q.block = dst.block ∧ dst.off ≤ q.off ∧ (q.off - dst.off) * sz < n
        then h.mem (Ptr.mk src.block (src.off + (q.off - dst.off)))
        else h.mem q := by
  unfold memcpy
  rw [if_neg hn, hd, hs]
  exact ⟨_, rfl, rfl, fun q => rfl⟩

/-- A `memcpy` that reads outside the source block is a memory failure. -/
theorem memcpy_fail {T : Type} (sz : Nat) (h : Heap T) (dst src : Ptr) (n : Nat) (hn : n ≠ 0)
    (hs : h.valid sz src n = false) :
    memcpy sz h dst src n = .error .memory := by
  unfold memcpy
  rw [if_neg hn, hs]
  simp

/-- The copy constructor on an image whose byte count fits in an `s32` and
whose storage is allocated (or null and empty): it succeeds, the copy has the
same dimensions, a fresh block of the same byte count and the same samples,
the source keeps its samples, and the two storages are different blocks, so a
store into one is not seen through the other. -/
theorem Image.Image_copy_deep {T : Type} (sz : Nat) (h : Heap T) (a : Image)
    (hsz0 : 0 < sz) (hsz : sz ≤ 4294967296)
    (h0 : 0 ≤ a.width_ * a.height_ * a.channels_)
    (hfit : (a.width_ * a.height_ * a.channels_).toNat * sz ≤ 2147483647)
    (hsrc : h.valid sz a.data_ ((a.width_ * a.height_ * a.channels_).toNat * sz) = true
      ∨ (a.data_ = CPPIMG_NULL ∧ a.width_ * a.height_ * a.channels_ = 0)) :
    ∃ h1 b, Image.Image_copy sz h a = .ok (h1, b) ∧
      b.width = a.width ∧ b.height = a.height ∧ b.channels = a.channels ∧
      h.blockBytes b.data_ = none ∧
      h1.blockBytes b.data_ = some ((a.width_ * a.height_ * a.channels_).toNat * sz) ∧
      (∀ i : Int, 0 ≤ i → i < a.width_ * a.height_ * a.channels_ →
        (Image.sample h1 b i : T) = Image.sample h a i) ∧
      (∀ i : Int, (Image.sample h1 a i : T) = Image.sample h a i) ∧
      (∀ i j : Int, b.data_.add i ≠ a.data_.add j) := by
  have hn : (a.width_ * a.height_ * a.channels_).toNat
      ≤ (a.width_ * a.height_ * a.channels_).toNat * sz := Nat.le_mul_of_pos_right _ hsz0
  have h1 : a.width_ * a.height_ * a.channels_ ≤ 2147483647 := by omega
  have hsize := Image.copySize_of_fits sz a hsz h0 h1 hfit
  have hblk : a.data_.block ≠ some h.blocks.length := by
    rcases hsrc with hv | ⟨hnull, _⟩
    · obtain ⟨b, hb, hlt⟩ := Heap.block_lt_of_valid h sz _ _ hv
      rw [hb]
      intro e
      cases e
      omega
    · rw [hnull]
      simp [CPPIMG_NULL]
  have hne : ∀ i j : Int, (⟨some h.blocks.length, 0⟩ : Ptr).add i ≠ a.data_.add j := by
    intro i j e
    have := congrArg Ptr.block e
    simp only [Ptr.add] at this
    exact hblk this.symm
  generalize hN : (a.width_ * a.height_ * a.channels_).toNat * sz = N at hsize hsrc hn hfit ⊢
  have hfresh : h.blockBytes (CPPIMG_MALLOC h N).2 = none := CPPIMG_MALLOC_fresh_self h N
  have hself : (CPPIMG_MALLOC h N).1.blockBytes (CPPIMG_MALLOC h N).2 = some N :=
    CPPIMG_MALLOC_blockBytes_self h N
  by_cases hz : N = 0
  · have hm : memcpy sz (CPPIMG_MALLOC h N).1 (CPPIMG_MALLOC h N).2 a.data_ N
        = .ok (CPPIMG_MALLOC h N).1 := by
      rw [hz]
      exact memcpy_zero sz (CPPIMG_MALLOC h 0).1 (CPPIMG_MALLOC h 0).2 a.data_
    refine ⟨(CPPIMG_MALLOC h N).1, ⟨a.width_, a.height_, a.channels_, (CPPIMG_MALLOC h N).2⟩,
      Image.Image_copy_of_ok sz h (CPPIMG_MALLOC h N).1 a N hsize hm, rfl, rfl, rfl,
      hfresh, hself, ?_, ?_, hne⟩
    · intro i hi0 hi1
      omega
    · intro i
      rfl
  · have hdst : (CPPIMG_MALLOC h N).1.valid sz (CPPIMG_MALLOC h N).2 N = true := by
      unfold Heap.valid
      rw [hself]
      simp [CPPIMG_MALLOC]
    have hsrc2 : (CPPIMG_MALLOC h N).1.valid sz a.data_ N = true := by
      rcases hsrc with hv | ⟨_, hzero⟩
      · exact Heap.valid_MALLOC_old h sz a.data_ N N hv
      · exfalso
        rw [hzero] at hn hN
        simp at hN
        exact hz hN.symm
    obtain ⟨h2, hm, _, hmem⟩ :=
      memcpy_ok sz (CPPIMG_MALLOC h N).1 (CPPIMG_MALLOC h N).2 a.data_ N hz hdst hsrc2
    have hself2 : h2.blockBytes (CPPIMG_MALLOC h N).2 = some N := by
      unfold Heap.blockBytes at hself ⊢
      rw [‹h2.blocks = (CPPIMG_MALLOC h N).1.blocks›]
      exact hself
    refine ⟨h2, ⟨a.width_, a.height_, a.channels_, (CPPIMG_MALLOC h N).2⟩,
      Image.Image_copy_of_ok sz h h2 a N hsize hm, rfl, rfl, rfl, hfresh, hself2, ?_, ?_, hne⟩
    · intro i hi0 hi1
      have hc : ((a.width_ * a.height_ * a.channels_).toNat : Int)
          = a.width_ * a.height_ * a.channels_ := Int.toNat_of_nonneg h0
      have hlt : i * (sz : Int) < (N : Int) := by
        rw [← hN]
        push_cast
        rw [hc]
        exact Int.mul_lt_mul_of_pos_right hi1 (by omega)
      unfold Image.sample
      rw [hmem]
      simp [CPPIMG_MALLOC, Ptr.add, hi0, hlt]
    · intro i
      have hb2 : ¬ (a.data_.block = some h.blocks.length) := hblk
      unfold Image.sample
      rw [hmem]
      simp [CPPIMG_MALLOC, Ptr.add, hb2]

/-- Witness of `Image.Image_copy_deep`: a `2 x 2` image of three four-byte
channels whose storage is the 48-byte block 0. -/
theorem Image.Image_copy_deep_witness :
    ((0 < 4 ∧ 4 ≤ 4294967296) ∧
      (Heap.mk [48] (fun _ => (0 : Nat))).valid 4 ⟨some 0, 0⟩ 48 = true) ∧
    ∃ h1 b, Image.Image_copy 4 (Heap.mk [48] (fun _ => (0 : Nat))) ⟨2, 2, 3, ⟨some 0, 0⟩⟩
        = .ok (h1, b) ∧
      b.width = 2 ∧ b.height = 2 ∧ b.channels = 3 ∧
      (Heap.mk [48] (fun _ => (0 : Nat))).blockBytes b.data_ = none ∧
      h1.blockBytes b.data_ = some 48 ∧
      (∀ i : Int, 0 ≤ i → i < 12 →
        (Image.sample h1 b i : Nat)
          = Image.sample (Heap.mk [48] (fun _ => (0 : Nat))) ⟨2, 2, 3, ⟨some 0, 0⟩⟩ i) ∧
      (∀ i : Int, (Image.sample h1 ⟨2, 2, 3, ⟨some 0, 0⟩⟩ i : Nat)
          = Image.sample (Heap.mk [48] (fun _ => (0 : Nat))) ⟨2, 2, 3, ⟨some 0, 0⟩⟩ i) ∧
      (∀ i j : Int, b.data_.add i ≠ (⟨some 0, 0⟩ : Ptr).add j) :=
  ⟨⟨by decide, by decide⟩,
   Image.Image_copy_deep 4 (Heap.mk [48] (fun _ => (0 : Nat))) ⟨2, 2, 3, ⟨some 0, 0⟩⟩
     (by decide) (by decide) (by decide) (by decide) (Or.inl (by decide))⟩

/-- C5 (code defect): an image of `32768 x 16384 x 1` four-byte samples is
constructed with a storage of `2147483648` bytes, but its copy constructor
narrows that byte count into an `s32`: `size` is `-2147483648`, the allocator
and `memcpy` are handed `18446744071562067968` bytes, and the copy ends in a
memory failure instead of a buffer with equal samples. -/
theorem C5_copy_fails_on_large_image (T : Type) (m : Mem T) :
    ∃ h a, Image.Image_dims 4 (Heap.empty m) 32768 16384 1 = .ok (h, a) ∧
      h.blockBytes a.data_ = some 2147483648 ∧
      Image.copySize 4 a = -2147483648 ∧
      toSizeT (Image.copySize 4 a) = 18446744071562067968 ∧
      Image.Image_copy 4 h a = .error .memory := by
  have hb : Image.byteCount 4 32768 16384 1 = 2147483648 := by decide
  have hs : ∀ p : Ptr, Image.copySize 4 ⟨32768, 16384, 1, p⟩ = -2147483648 := by
    intro p
    unfold Image.copySize
    rw [hb]
    decide
  have ht : ∀ p : Ptr, toSizeT (Image.copySize 4 ⟨32768, 16384, 1, p⟩)
      = 18446744071562067968 := by
    intro p
    rw [hs p]
    decide
  refine ⟨(CPPIMG_MALLOC (Heap.empty m) 2147483648).1,
    ⟨32768, 16384, 1, (CPPIMG_MALLOC (Heap.empty m) 2147483648).2⟩, ?_, ?_, hs _, ht _, ?_⟩
  · unfold Image.Image_dims
    rw [if_pos (by decide), if_pos (by decide), if_pos (by decide), hb]
  · exact CPPIMG_MALLOC_blockBytes_self (Heap.empty m) 2147483648
  · apply Image.Image_copy_of_error 4 _ _ Failure.memory 18446744071562067968 (ht _)
    apply memcpy_fail
    · decide
    · simp [Heap.valid, Heap.blockBytes, CPPIMG_MALLOC, Heap.empty]

/-! ## Colour space: what the converters write -/

theorem Ptr.add_ne_add (p : Ptr) (i j : Int) (h : i ≠ j) : p.add i ≠ p.add j := by
  intro e
  have := congrArg Ptr.off e
  simp only [Ptr.add] at this
  omega

theorem Disjoint3.add_ne {p q : Ptr} (hd : Disjoint3 p q) (i j : Int)
    (hi0 : 0 ≤ i) (hi : i < 3) (hj0 : 0 ≤ j) (hj : j < 3) : q.add j ≠ p.add i := by
  intro e
  have hb := congrArg Ptr.block e
  have ho := congrArg Ptr.off e
  simp only [Ptr.add] at hb ho
  rcases hd with h | h | h
  · exact h hb.symm
  · omega
  · omega

theorem Disjoint3.symm {p q : Ptr} (hd : Disjoint3 p q) : Disjoint3 q p := by
  rcases hd with h | h | h
  · exact Or.inl (fun e => h e.symm)
  · exact Or.inr (Or.inr h)
  · exact Or.inr (Or.inl h)

/-- The three samples of a triplet are three different addresses. -/
theorem Ptr.triplet_distinct (p : Ptr) :
    p.add 0 ≠ p.add 1 ∧ p.add 0 ≠ p.add 2 ∧ p.add 1 ≠ p.add 2 ∧
    p.add 1 ≠ p.add 0 ∧ p.add 2 ≠ p.add 0 ∧ p.add 2 ≠ p.add 1 :=
  ⟨Ptr.add_ne_add p 0 1 (by decide), Ptr.add_ne_add p 0 2 (by decide),
   Ptr.add_ne_add p 1 2 (by decide), Ptr.add_ne_add p 1 0 (by decide),
   Ptr.add_ne_add p 2 0 (by decide), Ptr.add_ne_add p 2 1 (by decide)⟩

/-- No sample of the input triplet `q` is a sample of a disjoint output
triplet `p`. -/
theorem Disjoint3.all_ne {p q : Ptr} (hd : Disjoint3 p q) :
    (q.add 0 ≠ p.add 0 ∧ q.add 1 ≠ p.add 0 ∧ q.add 2 ≠ p.add 0) ∧
    (q.add 0 ≠ p.add 1 ∧ q.add 1 ≠ p.add 1 ∧ q.add 2 ≠ p.add 1) ∧
    (q.add 0 ≠ p.add 2 ∧ q.add 1 ≠ p.add 2 ∧ q.add 2 ≠ p.add 2) :=
  ⟨⟨hd.add_ne 0 0 (by decide) (by decide) (by decide) (by decide),
    hd.add_ne 0 1 (by decide) (by decide) (by decide) (by decide),
    hd.add_ne 0 2 (by decide) (by decide) (by decide) (by decide)⟩,
   ⟨hd.add_ne 1 0 (by decide) (by decide) (by decide) (by decide),
    hd.add_ne 1 1 (by decide) (by decide) (by decide) (by decide),
    hd.add_ne 1 2 (by decide) (by decide) (by decide) (by decide)⟩,
   ⟨hd.add_ne 2 0 (by decide) (by decide) (by decide) (by decide),
    hd.add_ne 2 1 (by decide) (by decide) (by decide) (by decide),
    hd.add_ne 2 2 (by decide) (by decide) (by decide) (by decide)⟩⟩

/-- With an output triplet that does not overlap the input, `RGBToYCbCr`
writes the three values computed from the input and leaves the input. -/
theorem RGBToYCbCr_separate {T : Type} (S : SampleType T) (ybr rgb : Ptr) (m : Mem T)
    (hd : Disjoint3 ybr rgb) :
    triplet (RGBToYCbCr S ybr rgb m) ybr =
      (S.cast (0.257 * S.toF (m (rgb.add 0)) + 0.504 * S.toF (m (rgb.add 1))
          + 0.098 * S.toF (m (rgb.add 2)) + 16),
       S.cast (-0.148 * S.toF (m (rgb.add 0)) - 0.291 * S.toF (m (rgb.add 1))
          + 0.439 * S.toF (m (rgb.add 2)) + 128),
       S.cast (0.439 * S.toF (m (rgb.add 0)) - 0.368 * S.toF (m (rgb.add 1))
          - 0.071 * S.toF (m (rgb.add 2)) + 128)) ∧
    triplet (RGBToYCbCr S ybr rgb m) rgb = triplet m rgb := by
  obtain ⟨⟨a00, a01, a02⟩, ⟨a10, a11, a12⟩, ⟨a20, a21, a22⟩⟩ := hd.all_ne
  obtain ⟨s01, s02, s12, s10, s20, s21⟩ := Ptr.triplet_distinct ybr
  simp [triplet, RGBToYCbCr, Mem.store, a00, a01, a02, a10, a11, a12, a20, a21, a22,
    s01, s02, s12, s10, s20, s21]

/-- The function `YCbCrToRGB` reads its three inputs before its first write:
whatever the output triplet, also the input triplet itself, it writes the
three values computed from the input. -/
theorem YCbCrToRGB_written {T : Type} (S : SampleType T) (rgb ybr : Ptr) (m : Mem T) :
    triplet (YCbCrToRGB S rgb ybr m) rgb =
      (S.cast ((if 16 < S.toF (m (ybr.add 0)) then 1.164 * (S.toF (m (ybr.add 0)) - 16) else 0)
          + 1.596 * (S.toF (m (ybr.add 1)) - 128)),
       S.cast ((if 16 < S.toF (m (ybr.add 0)) then 1.164 * (S.toF (m (ybr.add 0)) - 16) else 0)
          - 0.391 * (S.toF (m (ybr.add 2)) - 128) - 0.813 * (S.toF (m (ybr.add 2)) - 128)),
       S.cast ((if 16 < S.toF (m (ybr.add 0)) then 1.164 * (S.toF (m (ybr.add 0)) - 16) else 0)
          + 2.018 * (S.toF (m (ybr.add 2)) - 128))) := by
  obtain ⟨s01, s02, s12, s10, s20, s21⟩ := Ptr.triplet_distinct rgb
  simp [triplet, YCbCrToRGB, Mem.store, s01, s02, s12, s10, s20, s21]

/-- With an output triplet that does not overlap the input, `YCbCrToRGB`
leaves the input. -/
theorem YCbCrToRGB_input_kept {T : Type} (S : SampleType T) (rgb ybr : Ptr) (m : Mem T)
    (hd : Disjoint3 rgb ybr) : triplet (YCbCrToRGB S rgb ybr m) ybr = triplet m ybr := by
  obtain ⟨⟨a00, a01, a02⟩, ⟨a10, a11, a12⟩, ⟨a20, a21, a22⟩⟩ := hd.all_ne
  simp [triplet, YCbCrToRGB, Mem.store, a00, a01, a02, a10, a11, a12, a20, a21, a22]

/-- With an output triplet that does not overlap the input, `RGBToYUV` writes
the three values computed from the input and leaves the input. -/
theorem RGBToYUV_separate {T : Type} (S : SampleType T) (yuv rgb : Ptr) (m : Mem T)
    (hd : Disjoint3 yuv rgb) :
    triplet (RGBToYUV S yuv rgb m) yuv =
      (S.cast (0.299 * S.toF (m (rgb.add 0)) + 0.587 * S.toF (m (rgb.add 1))
          + 0.114 * S.toF (m (rgb.add 2))),
       S.cast (-0.169 * S.toF (m (rgb.add 0)) - 0.331 * S.toF (m (rgb.add 1))
          + 0.500 * S.toF (m (rgb.add 2))),
       S.cast (0.500 * S.toF (m (rgb.add 0)) - 0.419 * S.toF (m (rgb.add 1))
          - 0.081 * S.toF (m (rgb.add 2)))) ∧
    triplet (RGBToYUV S yuv rgb m) rgb = triplet m rgb := by
  obtain ⟨⟨a00, a01, a02⟩, ⟨a10, a11, a12⟩, ⟨a20, a21, a22⟩⟩ := hd.all_ne
  obtain ⟨s01, s02, s12, s10, s20, s21⟩ := Ptr.triplet_distinct yuv
  simp [triplet, RGBToYUV, Mem.store, a00, a01, a02, a10, a11, a12, a20, a21, a22,
    s01, s02, s12, s10, s20, s21]

/-- With an output triplet that does not overlap the input, `YUVToRGB` writes
the three values computed from the chroma of its input and from the luma it
reads through `ybr`, and leaves the input. -/
theorem YUVToRGB_separate {T : Type} (S : SampleType T) (ybr rgb yuv : Ptr) (m : Mem T)
    (hd : Disjoint3 rgb yuv) :
    triplet (YUVToRGB S ybr rgb yuv m) rgb =
      (S.cast (S.toF (m (ybr.add 0)) + 1.402 * S.toF (m (yuv.add 2))),
       S.cast (S.toF (m (ybr.add 0)) - 0.344 * S.toF (m (yuv.add 1))
          - 0.714 * S.toF (m (yuv.add 2))),
       S.cast (S.toF (m (ybr.add 0)) + 1.772 * S.toF (m (yuv.add 1)))) ∧
    triplet (YUVToRGB S ybr rgb yuv m) yuv = triplet m yuv := by
  obtain ⟨⟨a00, a01, a02⟩, ⟨a10, a11, a12⟩, ⟨a20, a21, a22⟩⟩ := hd.all_ne
  obtain ⟨s01, s02, s12, s10, s20, s21⟩ := Ptr.triplet_distinct rgb
  simp [triplet, YUVToRGB, Mem.store, a00, a01, a02, a10, a11, a12, a20, a21, a22,
    s01, s02, s12, s10, s20, s21]

/-! ## Colour space: in-place use and the red scenario -/

/-- The function `YCbCrToRGB` may be used in place: called with its input
triplet `p` as output it leaves in `p` the three values it writes to any other
output triplet `q`. -/
theorem YCbCrToRGB_in_place {T : Type} (S : SampleType T) (p q : Ptr) (m : Mem T) :
    triplet (YCbCrToRGB S p p m) p = triplet (YCbCrToRGB S q p m) q := by
  rw [YCbCrToRGB_written, YCbCrToRGB_written]

/-- C9 (code defect): used in place, three of the converters read samples
they have already overwritten.  On `(255, 0, 0)`, `RGBToYCbCr(p,p)` leaves
`(81.535, 115.93282, 121.13058724)` where a separate output receives
`(81.535, 90.26, 239.945)`, and `RGBToYUV(p,p)` leaves
`(76.245, -12.885405, 43.521484695)` where a separate output receives
`(76.245, -43.095, 127.5)`; on `(100, 10, 20)`, `YUVToRGB(p,p)` (with `ybr`
bound to its input) leaves `(128.04, 82.28, 245.80016)` where a separate
output receives `(128.04, 82.28, 117.72)`. -/
theorem C9_in_place_fails :
    (triplet (RGBToYCbCr SampleType.exact ⟨some 0, 0⟩ ⟨some 0, 0⟩
        (withTriplet (fun _ => 0) ⟨some 0, 0⟩ (255, 0, 0))) ⟨some 0, 0⟩
      = (81.535, 115.93282, 121.13058724) ∧
     triplet (RGBToYCbCr SampleType.exact ⟨some 1, 0⟩ ⟨some 0, 0⟩
        (withTriplet (fun _ => 0) ⟨some 0, 0⟩ (255, 0, 0))) ⟨some 1, 0⟩
      = (81.535, 90.26, 239.945)) ∧
    (triplet (RGBToYUV SampleType.exact ⟨some 0, 0⟩ ⟨some 0, 0⟩
        (withTriplet (fun _ => 0) ⟨some 0, 0⟩ (255, 0, 0))) ⟨some 0, 0⟩
      = (76.245, -12.885405, 43.521484695) ∧
     triplet (RGBToYUV SampleType.exact ⟨some 1, 0⟩ ⟨some 0, 0⟩
        (withTriplet (fun _ => 0) ⟨some 0, 0⟩ (255, 0, 0))) ⟨some 1, 0⟩
      = (76.245, -43.095, 127.5)) ∧
    (triplet (YUVToRGB SampleType.exact ⟨some 0, 0⟩ ⟨some 0, 0⟩ ⟨some 0, 0⟩
        (withTriplet (fun _ => 0) ⟨some 0, 0⟩ (100, 10, 20))) ⟨some 0, 0⟩
      = (128.04, 82.28, 245.80016) ∧
     triplet (YUVToRGB SampleType.exact ⟨some 0, 0⟩ ⟨some 1, 0⟩ ⟨some 0, 0⟩
        (withTriplet (fun _ => 0) ⟨some 0, 0⟩ (100, 10, 20))) ⟨some 1, 0⟩
      = (128.04, 82.28, 117.72)) := by
  refine ⟨⟨?_, ?_⟩, ⟨?_, ?_⟩, ⟨?_, ?_⟩⟩
  · simp only [triplet, RGBToYCbCr, Mem.store, withTriplet, Ptr.add, SampleType.exact, id]
    norm_num
  · simp only [triplet, RGBToYCbCr, Mem.store, withTriplet, Ptr.add, SampleType.exact, id]
    norm_num
  · simp only [triplet, RGBToYUV, Mem.store, withTriplet, Ptr.add, SampleType.exact, id]
    norm_num
  · simp only [triplet, RGBToYUV, Mem.store, withTriplet, Ptr.add, SampleType.exact, id]
    norm_num
  · simp only [triplet, YUVToRGB, Mem.store, withTriplet, Ptr.add, SampleType.exact, id]
    norm_num
  · simp only [triplet, YUVToRGB, Mem.store, withTriplet, Ptr.add, SampleType.exact, id]
    norm_num

theorem round_of_bounds (x : ℚ) (n : ℤ) (h1 : (n : ℚ) ≤ x + 1 / 2) (h2 : x + 1 / 2 < n + 1) :
    round x = n := by
  rw [round_eq]
  exact Int.floor_eq_iff.mpr ⟨h1, h2⟩

/-- C10 (amended): on the triplet `(255,0,0)`, in exact arithmetic and with a
separate output, `RGBToYCbCr` writes `(81.535, 90.26, 239.945)`.  `Y` and `Cb`
are within `0.5` of `81.48` and `90.44`; `Cr` is `0.625` away from `240.57`;
rounding to the nearest sample gives `(82, 90, 240)`. -/
theorem C10_red (ybr rgb : Ptr) (m : Mem ℚ) (hd : Disjoint3 ybr rgb)
    (hin : triplet m rgb = (255, 0, 0)) :
    triplet (RGBToYCbCr SampleType.exact ybr rgb m) ybr = (81.535, 90.26, 239.945) ∧
    |(triplet (RGBToYCbCr SampleType.exact ybr rgb m) ybr).1 - 81.48| ≤ 1 / 2 ∧
    |(triplet (RGBToYCbCr SampleType.exact ybr rgb m) ybr).2.1 - 90.44| ≤ 1 / 2 ∧
    |(triplet (RGBToYCbCr SampleType.exact ybr rgb m) ybr).2.2 - 240.57| = 0.625 ∧
    round (triplet (RGBToYCbCr SampleType.exact ybr rgb m) ybr).1 = 82 ∧
    round (triplet (RGBToYCbCr SampleType.exact ybr rgb m) ybr).2.1 = 90 ∧
    round (triplet (RGBToYCbCr SampleType.exact ybr rgb m) ybr).2.2 = 240 := by
  have h0 : m (rgb.add 0) = 255 := congrArg Prod.fst hin
  have h1 : m (rgb.add 1) = 0 := congrArg (fun t => t.2.1) hin
  have h2 : m (rgb.add 2) = 0 := congrArg (fun t => t.2.2) hin
  have hv : triplet (RGBToYCbCr SampleType.exact ybr rgb m) ybr = (81.535, 90.26, 239.945) := by
    rw [(RGBToYCbCr_separate SampleType.exact ybr rgb m hd).1, h0, h1, h2]
    simp only [SampleType.exact, id]
    norm_num
  rw [hv]
  refine ⟨rfl, ?_, ?_, ?_, ?_, ?_, ?_⟩
  · rw [abs_le]
    constructor <;> norm_num
  · rw [abs_le]
    constructor <;> norm_num
  · rw [abs_of_nonpos (by norm_num)]
    norm_num
  · exact round_of_bounds _ 82 (by norm_num) (by norm_num)
  · exact round_of_bounds _ 90 (by norm_num) (by norm_num)
  · exact round_of_bounds _ 240 (by norm_num) (by norm_num)

/-- C10, witness: input triplet in block 0, output triplet in block 1. -/
theorem C10_red_witness :
    (Disjoint3 ⟨some 1, 0⟩ ⟨some 0, 0⟩ ∧
      triplet (withTriplet (fun _ => (0 : ℚ)) ⟨some 0, 0⟩ (255, 0, 0)) ⟨some 0, 0⟩
        = (255, 0, 0)) ∧
    triplet (RGBToYCbCr SampleType.exact ⟨some 1, 0⟩ ⟨some 0, 0⟩
      (withTriplet (fun _ => 0) ⟨some 0, 0⟩ (255, 0, 0))) ⟨some 1, 0⟩
      = (81.535, 90.26, 239.945) :=
  have hin : triplet (withTriplet (fun _ => (0 : ℚ)) ⟨some 0, 0⟩ (255, 0, 0)) ⟨some 0, 0⟩
      = (255, 0, 0) := by
    simp [triplet, withTriplet, Mem.store, Ptr.add]
  ⟨⟨Or.inl (by decide), hin⟩,
   (C10_red ⟨some 1, 0⟩ ⟨some 0, 0⟩ (withTriplet (fun _ => 0) ⟨some 0, 0⟩ (255, 0, 0))
      (Or.inl (by decide)) hin).1⟩

/-- C10, counterexample: the `Cr` that `RGBToYCbCr` computes for `(255,0,0)`
is more than `0.5` away from `240.57`, and rounding the result to the nearest
sample gives neither `81` for `Y` nor `241` for `Cr`. -/
theorem C10_counterexample :
    ¬ (|(triplet (RGBToYCbCr SampleType.exact ⟨some 1, 0⟩ ⟨some 0, 0⟩
        (withTriplet (fun _ => 0) ⟨some 0, 0⟩ (255, 0, 0))) ⟨some 1, 0⟩).2.2 - 240.57|
          ≤ 1 / 2) ∧
    round (triplet (RGBToYCbCr SampleType.exact ⟨some 1, 0⟩ ⟨some 0, 0⟩
        (withTriplet (fun _ => 0) ⟨some 0, 0⟩ (255, 0, 0))) ⟨some 1, 0⟩).1 ≠ 81 ∧
    round (triplet (RGBToYCbCr SampleType.exact ⟨some 1, 0⟩ ⟨some 0, 0⟩
        (withTriplet (fun _ => 0) ⟨some 0, 0⟩ (255, 0, 0))) ⟨some 1, 0⟩).2.2 ≠ 241 := by
  have hv : triplet (RGBToYCbCr SampleType.exact ⟨some 1, 0⟩ ⟨some 0, 0⟩
      (withTriplet (fun _ => 0) ⟨some 0, 0⟩ (255, 0, 0))) ⟨some 1, 0⟩
      = (81.535, 90.26, 239.945) := by
    simp [triplet, RGBToYCbCr, Mem.store, withTriplet, Ptr.add, SampleType.exact]
    norm_num
  rw [hv]
  refine ⟨?_, ?_, ?_⟩
  · rw [abs_of_nonpos (by norm_num)]
    norm_num
  · rw [round_of_bounds _ 82 (by norm_num) (by norm_num)]
    decide
  · rw [round_of_bounds _ 240 (by norm_num) (by norm_num)]
    decide

/-! ## Colour space: the inverse converters -/

/-- C11 (code defect): on the exact triplet `(128, 64, 200)`, `RGBToYCbCr`
followed by `YCbCrToRGB` (each with a separate output) returns
`(178.8216, 76.449568, 135.863248)`: every component is more than `2` away
from the original. -/
theorem C11_roundtrip_fails :
    triplet (YCbCrToRGB SampleType.exact ⟨some 2, 0⟩ ⟨some 1, 0⟩
        (RGBToYCbCr SampleType.exact ⟨some 1, 0⟩ ⟨some 0, 0⟩
          (withTriplet (fun _ => 0) ⟨some 0, 0⟩ (128, 64, 200)))) ⟨some 2, 0⟩
      = (178.8216, 76.449568, 135.863248) ∧
    ¬ (|(178.8216 : ℚ) - 128| ≤ 2) ∧ ¬ (|(76.449568 : ℚ) - 64| ≤ 2) ∧
    ¬ (|(135.863248 : ℚ) - 200| ≤ 2) := by
  refine ⟨?_, ?_, ?_, ?_⟩
  · rw [YCbCrToRGB_written]
    have hd : Disjoint3 ⟨some 1, 0⟩ ⟨some 0, 0⟩ := Or.inl (by decide)
    have h := (RGBToYCbCr_separate SampleType.exact ⟨some 1, 0⟩ ⟨some 0, 0⟩
      (withTriplet (fun _ => 0) ⟨some 0, 0⟩ (128, 64, 200)) hd).1
    have h0 := congrArg Prod.fst h
    have h1 := congrArg (fun t => t.2.1) h
    have h2 := congrArg (fun t => t.2.2) h
    simp only [triplet] at h0 h1 h2
    rw [h0, h1, h2]
    norm_num [withTriplet, Mem.store, Ptr.add, SampleType.exact]
  · rw [abs_of_nonneg (by norm_num)]
    norm_num
  · rw [abs_of_nonneg (by norm_num)]
    norm_num
  · rw [abs_of_nonpos (by norm_num)]
    norm_num

/-- C12 (code defect): the value `YCbCrToRGB` writes to `rgb[2]` is
`Y' + 2.018*Cr'`, computed from `ybr[2]` and not from `ybr[1]`: on the exact
triplet `(Y, Cb, Cr) = (16, 228, 128)` it writes `0`, not
`0 + 2.018*(228-128) = 201.8`. -/
theorem C12_blue_from_Cr :
    (∀ (T : Type) (S : SampleType T) (rgb ybr : Ptr) (m : Mem T),
      (YCbCrToRGB S rgb ybr m) (rgb.add 2) =
        S.cast ((if 16 < S.toF (m (ybr.add 0)) then 1.164 * (S.toF (m (ybr.add 0)) - 16)
            else 0) + 2.018 * (S.toF (m (ybr.add 2)) - 128))) ∧
    (YCbCrToRGB SampleType.exact ⟨some 1, 0⟩ ⟨some 0, 0⟩
        (withTriplet (fun _ => 0) ⟨some 0, 0⟩ (16, 228, 128))) ((⟨some 1, 0⟩ : Ptr).add 2) = 0 ∧
    (0 : ℚ) ≠ 0 + 2.018 * (228 - 128) := by
  refine ⟨?_, ?_, by norm_num⟩
  · intro T S rgb ybr m
    exact congrArg (fun t => t.2.2) (YCbCrToRGB_written S rgb ybr m)
  · have h := congrArg (fun t => t.2.2) (YCbCrToRGB_written SampleType.exact ⟨some 1, 0⟩
      ⟨some 0, 0⟩ (withTriplet (fun _ => 0) ⟨some 0, 0⟩ (16, 228, 128)))
    simp only [triplet] at h
    rw [h]
    norm_num [withTriplet, Mem.store, Ptr.add, SampleType.exact]

/-- C13 (amended): in exact arithmetic, with `Y' = 1.164*(Y-16)` if `Y > 16`
and `Y' = 0` otherwise, `Cb' = Cb - 128`, `Cr' = Cr - 128`, the value that
`YCbCrToRGB` casts into `rgb[0]` is `Y' + 1.596*Cb'` and the value it casts
into `rgb[1]` is `Y' - 0.391*Cr' - 0.813*Cr'`; the green output is the same
for two inputs that differ in
`Cb` only, and for `Y ≤ 16` all three outputs are the same for two inputs with
equal chroma. -/
theorem C13_red_green_and_floor (T : Type) (S : SampleType T) (rgb ybr : Ptr) :
    (∀ m : Mem T,
      (YCbCrToRGB S rgb ybr m) (rgb.add 0) =
        S.cast ((if 16 < S.toF (m (ybr.add 0)) then 1.164 * (S.toF (m (ybr.add 0)) - 16)
            else 0) + 1.596 * (S.toF (m (ybr.add 1)) - 128)) ∧
      (YCbCrToRGB S rgb ybr m) (rgb.add 1) =
        S.cast ((if 16 < S.toF (m (ybr.add 0)) then 1.164 * (S.toF (m (ybr.add 0)) - 16)
            else 0) - 0.391 * (S.toF (m (ybr.add 2)) - 128)
            - 0.813 * (S.toF (m (ybr.add 2)) - 128))) ∧
    (∀ m1 m2 : Mem T, m1 (ybr.add 0) = m2 (ybr.add 0) → m1 (ybr.add 2) = m2 (ybr.add 2) →
      (YCbCrToRGB S rgb ybr m1) (rgb.add 1) = (YCbCrToRGB S rgb ybr m2) (rgb.add 1)) ∧
    (∀ m1 m2 : Mem T, S.toF (m1 (ybr.add 0)) ≤ 16 → S.toF (m2 (ybr.add 0)) ≤ 16 →
      m1 (ybr.add 1) = m2 (ybr.add 1) → m1 (ybr.add 2) = m2 (ybr.add 2) →
      triplet (YCbCrToRGB S rgb ybr m1) rgb = triplet (YCbCrToRGB S rgb ybr m2) rgb) := by
  refine ⟨?_, ?_, ?_⟩
  · intro m
    exact ⟨congrArg Prod.fst (YCbCrToRGB_written S rgb ybr m),
      congrArg (fun t => t.2.1) (YCbCrToRGB_written S rgb ybr m)⟩
  · intro m1 m2 h0 h2
    have e1 := congrArg (fun t => t.2.1) (YCbCrToRGB_written S rgb ybr m1)
    have e2 := congrArg (fun t => t.2.1) (YCbCrToRGB_written S rgb ybr m2)
    simp only [triplet] at e1 e2
    rw [e1, e2, h0, h2]
  · intro m1 m2 hy1 hy2 h1 h2
    rw [YCbCrToRGB_written, YCbCrToRGB_written, if_neg (not_lt.mpr hy1),
      if_neg (not_lt.mpr hy2), h1, h2]

/-- C13, counterexample: for `u8` samples and `(Y, Cb, Cr) = (16, 129, 128)`
the sample `YCbCrToRGB` leaves in `rgb[0]` is `1`, which is not
`Y' + 1.596*Cb' = 0 + 1.596*(129 - 128)`: the cast has dropped the fraction. -/
theorem C13_counterexample :
    (YCbCrToRGB SampleType.u8 ⟨some 1, 0⟩ ⟨some 0, 0⟩
        (withTriplet (fun _ => 0) ⟨some 0, 0⟩ (16, 129, 128))) ((⟨some 1, 0⟩ : Ptr).add 0) = 1 ∧
    SampleType.u8.toF ((YCbCrToRGB SampleType.u8 ⟨some 1, 0⟩ ⟨some 0, 0⟩
        (withTriplet (fun _ => 0) ⟨some 0, 0⟩ (16, 129, 128))) ((⟨some 1, 0⟩ : Ptr).add 0))
      ≠ (if (16 : ℚ) < 16 then 1.164 * (16 - 16) else 0) + 1.596 * (129 - 128) := by
  have hfloor : ⌊(1.596 : ℚ)⌋ = 1 := Int.floor_eq_iff.mpr ⟨by norm_num, by norm_num⟩
  have hv : (YCbCrToRGB SampleType.u8 ⟨some 1, 0⟩ ⟨some 0, 0⟩
      (withTriplet (fun _ => 0) ⟨some 0, 0⟩ (16, 129, 128))) ((⟨some 1, 0⟩ : Ptr).add 0) = 1 := by
    have h := congrArg Prod.fst (YCbCrToRGB_written SampleType.u8 ⟨some 1, 0⟩ ⟨some 0, 0⟩
      (withTriplet (fun _ => 0) ⟨some 0, 0⟩ (16, 129, 128)))
    simp only [triplet] at h
    rw [h]
    have e0 : (withTriplet (fun _ => (0 : Nat)) ⟨some 0, 0⟩ (16, 129, 128))
        ((⟨some 0, 0⟩ : Ptr).add 0) = 16 := by
      simp [withTriplet, Mem.store, Ptr.add]
    have e1 : (withTriplet (fun _ => (0 : Nat)) ⟨some 0, 0⟩ (16, 129, 128))
        ((⟨some 0, 0⟩ : Ptr).add 1) = 129 := by
      simp [withTriplet, Mem.store, Ptr.add]
    rw [e0, e1]
    have hval : (if (16 : ℚ) < ((16 : Nat) : ℚ) then 1.164 * (((16 : Nat) : ℚ) - 16) else 0)
        + 1.596 * (((129 : Nat) : ℚ) - 128) = 1.596 := by norm_num
    simp only [SampleType.u8]
    rw [hval, if_pos (by norm_num), hfloor]
    decide
  refine ⟨hv, ?_⟩
  rw [hv]
  simp only [SampleType.u8]
  norm_num

/-- C14 (code defect): `YUVToRGB` takes its luma from `ybr[0]`, a name that is
not its input `yuv`: in general it writes `ybr[0] + 1.402*yuv[2]`,
`ybr[0] - 0.344*yuv[1] - 0.714*yuv[2]`, `ybr[0] + 1.772*yuv[1]`; on the exact
input `yuv = (100, 0, 0)`, with `ybr` a triplet of zeros elsewhere, it writes
`(0, 0, 0)` and not `(100, 100, 100)`. -/
theorem C14_luma_not_from_input :
    (∀ (T : Type) (S : SampleType T) (ybr rgb yuv : Ptr) (m : Mem T), Disjoint3 rgb yuv →
      triplet (YUVToRGB S ybr rgb yuv m) rgb =
        (S.cast (S.toF (m (ybr.add 0)) + 1.402 * S.toF (m (yuv.add 2))),
         S.cast (S.toF (m (ybr.add 0)) - 0.344 * S.toF (m (yuv.add 1))
            - 0.714 * S.toF (m (yuv.add 2))),
         S.cast (S.toF (m (ybr.add 0)) + 1.772 * S.toF (m (yuv.add 1))))) ∧
    triplet (YUVToRGB SampleType.exact ⟨some 2, 0⟩ ⟨some 1, 0⟩ ⟨some 0, 0⟩
        (withTriplet (fun _ => 0) ⟨some 0, 0⟩ (100, 0, 0))) ⟨some 1, 0⟩ = (0, 0, 0) ∧
    ((0, 0, 0) : ℚ × ℚ × ℚ) ≠ (100, 100, 100) := by
  refine ⟨?_, ?_, ?_⟩
  rotate_left 2
  · intro h
    have h0 : (0 : ℚ) = 100 := congrArg Prod.fst h
    norm_num at h0
  · intro T S ybr rgb yuv m hd
    exact (YUVToRGB_separate S ybr rgb yuv m hd).1
  · rw [(YUVToRGB_separate SampleType.exact ⟨some 2, 0⟩ ⟨some 1, 0⟩ ⟨some 0, 0⟩
      (withTriplet (fun _ => 0) ⟨some 0, 0⟩ (100, 0, 0)) (Or.inl (by decide))).1]
    norm_num [withTriplet, Mem.store, Ptr.add, SampleType.exact]

/-- C15 (code defect): on the exact triplet `(255, 255, 255)`, `RGBToYUV`
writes `(255, 0, 0)`, and `YUVToRGB` applied to that output, with `ybr` a
triplet of zeros elsewhere, returns `(0, 0, 0)`: every component is `255` away
from the original. -/
theorem C15_roundtrip_fails :
    triplet (RGBToYUV SampleType.exact ⟨some 1, 0⟩ ⟨some 0, 0⟩
        (withTriplet (fun _ => 0) ⟨some 0, 0⟩ (255, 255, 255))) ⟨some 1, 0⟩ = (255, 0, 0) ∧
    triplet (YUVToRGB SampleType.exact ⟨some 3, 0⟩ ⟨some 2, 0⟩ ⟨some 1, 0⟩
        (RGBToYUV SampleType.exact ⟨some 1, 0⟩ ⟨some 0, 0⟩
          (withTriplet (fun _ => 0) ⟨some 0, 0⟩ (255, 255, 255)))) ⟨some 2, 0⟩ = (0, 0, 0) ∧
    ¬ (|(0 : ℚ) - 255| ≤ 2) := by
  have hd : Disjoint3 ⟨some 1, 0⟩ ⟨some 0, 0⟩ := Or.inl (by decide)
  have h := (RGBToYUV_separate SampleType.exact ⟨some 1, 0⟩ ⟨some 0, 0⟩
    (withTriplet (fun _ => 0) ⟨some 0, 0⟩ (255, 255, 255)) hd).1
  have hv : triplet (RGBToYUV SampleType.exact ⟨some 1, 0⟩ ⟨some 0, 0⟩
      (withTriplet (fun _ => 0) ⟨some 0, 0⟩ (255, 255, 255))) ⟨some 1, 0⟩ = (255, 0, 0) := by
    rw [h]
    norm_num [withTriplet, Mem.store, Ptr.add, SampleType.exact]
  refine ⟨hv, ?_, ?_⟩
  · rw [(YUVToRGB_separate SampleType.exact ⟨some 3, 0⟩ ⟨some 2, 0⟩ ⟨some 1, 0⟩ _
      (Or.inl (by decide))).1]
    have h1 := congrArg (fun t => t.2.1) hv
    have h2 := congrArg (fun t => t.2.2) hv
    simp only [triplet] at h1 h2
    rw [h1, h2]
    norm_num [RGBToYUV, withTriplet, Mem.store, Ptr.add, SampleType.exact]
  · rw [abs_of_nonpos (by norm_num)]
    norm_num

/-- With `ybr` bound to the input of `YUVToRGB`, the pair `RGBToYUV`,
`YUVToRGB` recovers every triplet of `[0,255]` to within `2` (in exact
arithmetic, separate outputs). -/
theorem YUV_roundtrip_of_bound (p q r : Ptr) (m : Mem ℚ) (R G B : ℚ)
    (hq : Disjoint3 q p) (hr : Disjoint3 r q) (hin : triplet m p = (R, G, B))
    (hR : 0 ≤ R ∧ R ≤ 255) (hG : 0 ≤ G ∧ G ≤ 255) (hB : 0 ≤ B ∧ B ≤ 255) :
    |(triplet (YUVToRGB SampleType.exact q r q (RGBToYUV SampleType.exact q p m)) r).1 - R| ≤ 2 ∧
    |(triplet (YUVToRGB SampleType.exact q r q (RGBToYUV SampleType.exact q p m)) r).2.1 - G| ≤ 2 ∧
    |(triplet (YUVToRGB SampleType.exact q r q (RGBToYUV SampleType.exact q p m)) r).2.2 - B| ≤ 2 := by
  have h0 : m (p.add 0) = R := congrArg Prod.fst hin
  have h1 : m (p.add 1) = G := congrArg (fun t => t.2.1) hin
  have h2 : m (p.add 2) = B := congrArg (fun t => t.2.2) hin
  have h := (RGBToYUV_separate SampleType.exact q p m hq).1
  have e0 := congrArg Prod.fst h
  have e1 := congrArg (fun t => t.2.1) h
  have e2 := congrArg (fun t => t.2.2) h
  simp only [triplet] at e0 e1 e2
  rw [(YUVToRGB_separate SampleType.exact q r q _ hr).1, e0, e1, e2, h0, h1, h2]
  simp only [SampleType.exact, id]
  obtain ⟨r0, r1⟩ := hR
  obtain ⟨g0, g1⟩ := hG
  obtain ⟨b0, b1⟩ := hB
  refine ⟨?_, ?_, ?_⟩ <;> rw [abs_le] <;> constructor <;> norm_num <;> linarith

/-- C16 (amended): for every triplet with components in `[0,255]`, the values
`RGBToYCbCr` computes in exact arithmetic satisfy `16 ≤ Y ≤ 235.045`,
`16 ≤ Cb ≤ 240` and `16 ≤ Cr ≤ 240`; all three lie in `[0, 256)`. -/
theorem C16_ranges (ybr rgb : Ptr) (m : Mem ℚ) (R G B : ℚ)
    (hd : Disjoint3 ybr rgb) (hin : triplet m rgb = (R, G, B))
    (hR : 0 ≤ R ∧ R ≤ 255) (hG : 0 ≤ G ∧ G ≤ 255) (hB : 0 ≤ B ∧ B ≤ 255) :
    (16 ≤ (triplet (RGBToYCbCr SampleType.exact ybr rgb m) ybr).1 ∧
      (triplet (RGBToYCbCr SampleType.exact ybr rgb m) ybr).1 ≤ 235.045) ∧
    (16 ≤ (triplet (RGBToYCbCr SampleType.exact ybr rgb m) ybr).2.1 ∧
      (triplet (RGBToYCbCr SampleType.exact ybr rgb m) ybr).2.1 ≤ 240) ∧
    (16 ≤ (triplet (RGBToYCbCr SampleType.exact ybr rgb m) ybr).2.2 ∧
      (triplet (RGBToYCbCr SampleType.exact ybr rgb m) ybr).2.2 ≤ 240) ∧
    (triplet (RGBToYCbCr SampleType.exact ybr rgb m) ybr).1 < 256 := by
  have h0 : m (rgb.add 0) = R := congrArg Prod.fst hin
  have h1 : m (rgb.add 1) = G := congrArg (fun t => t.2.1) hin
  have h2 : m (rgb.add 2) = B := congrArg (fun t => t.2.2) hin
  rw [(RGBToYCbCr_separate SampleType.exact ybr rgb m hd).1, h0, h1, h2]
  simp only [SampleType.exact, id]
  obtain ⟨r0, r1⟩ := hR
  obtain ⟨g0, g1⟩ := hG
  obtain ⟨b0, b1⟩ := hB
  refine ⟨⟨?_, ?_⟩, ⟨?_, ?_⟩, ⟨?_, ?_⟩, ?_⟩ <;> norm_num <;> linarith

/-- C16, witness: the triplet `(255, 255, 255)`, output in another block. -/
theorem C16_ranges_witness :
    (Disjoint3 ⟨some 1, 0⟩ ⟨some 0, 0⟩ ∧
      triplet (withTriplet (fun _ => (0 : ℚ)) ⟨some 0, 0⟩ (255, 255, 255)) ⟨some 0, 0⟩
        = (255, 255, 255)) ∧
    (16 ≤ (triplet (RGBToYCbCr SampleType.exact ⟨some 1, 0⟩ ⟨some 0, 0⟩
        (withTriplet (fun _ => 0) ⟨some 0, 0⟩ (255, 255, 255))) ⟨some 1, 0⟩).1 ∧
      (triplet (RGBToYCbCr SampleType.exact ⟨some 1, 0⟩ ⟨some 0, 0⟩
        (withTriplet (fun _ => 0) ⟨some 0, 0⟩ (255, 255, 255))) ⟨some 1, 0⟩).1 ≤ 235.045) :=
  have hin : triplet (withTriplet (fun _ => (0 : ℚ)) ⟨some 0, 0⟩ (255, 255, 255)) ⟨some 0, 0⟩
      = (255, 255, 255) := by
    simp [triplet, withTriplet, Mem.store, Ptr.add]
  ⟨⟨Or.inl (by decide), hin⟩,
   (C16_ranges ⟨some 1, 0⟩ ⟨some 0, 0⟩ (withTriplet (fun _ => 0) ⟨some 0, 0⟩ (255, 255, 255))
      255 255 255 (Or.inl (by decide)) hin (by norm_num) (by norm_num) (by norm_num)).1⟩

/-- C16, counterexample: for the triplet `(255, 255, 255)` the luma that
`RGBToYCbCr` computes is `235.045`, above `235`. -/
theorem C16_counterexample :
    (triplet (RGBToYCbCr SampleType.exact ⟨some 1, 0⟩ ⟨some 0, 0⟩
        (withTriplet (fun _ => 0) ⟨some 0, 0⟩ (255, 255, 255))) ⟨some 1, 0⟩).1 = 235.045 ∧
    ¬ ((triplet (RGBToYCbCr SampleType.exact ⟨some 1, 0⟩ ⟨some 0, 0⟩
        (withTriplet (fun _ => 0) ⟨some 0, 0⟩ (255, 255, 255))) ⟨some 1, 0⟩).1 ≤ 235) := by
  have hv : (triplet (RGBToYCbCr SampleType.exact ⟨some 1, 0⟩ ⟨some 0, 0⟩
      (withTriplet (fun _ => 0) ⟨some 0, 0⟩ (255, 255, 255))) ⟨some 1, 0⟩).1 = 235.045 := by
    rw [(RGBToYCbCr_separate SampleType.exact ⟨some 1, 0⟩ ⟨some 0, 0⟩ _ (Or.inl (by decide))).1]
    norm_num [withTriplet, Mem.store, Ptr.add, SampleType.exact]
  rw [hv]
  exact ⟨rfl, by norm_num⟩

/-- C19: on a grey triplet `(v, v, v)`, in exact arithmetic and with a
separate output, `RGBToYCbCr` writes `(0.859*v + 16, 128, 128)` and `RGBToYUV`
writes `(v, 0, 0)`. -/
theorem C19_grey_neutral (ybr rgb : Ptr) (m : Mem ℚ) (v : ℚ)
    (hd : Disjoint3 ybr rgb) (hin : triplet m rgb = (v, v, v)) :
    triplet (RGBToYCbCr SampleType.exact ybr rgb m) ybr = (0.859 * v + 16, 128, 128) ∧
    triplet (RGBToYUV SampleType.exact ybr rgb m) ybr = (v, 0, 0) := by
  have h0 : m (rgb.add 0) = v := congrArg Prod.fst hin
  have h1 : m (rgb.add 1) = v := congrArg (fun t => t.2.1) hin
  have h2 : m (rgb.add 2) = v := congrArg (fun t => t.2.2) hin
  rw [(RGBToYCbCr_separate SampleType.exact ybr rgb m hd).1,
    (RGBToYUV_separate SampleType.exact ybr rgb m hd).1, h0, h1, h2]
  simp only [SampleType.exact, id, Prod.mk.injEq]
  refine ⟨⟨?_, ?_, ?_⟩, ⟨?_, ?_, ?_⟩⟩ <;> ring

/-- C19, witness: the grey triplet `(100, 100, 100)`. -/
theorem C19_grey_neutral_witness :
    (Disjoint3 ⟨some 1, 0⟩ ⟨some 0, 0⟩ ∧
      triplet (withTriplet (fun _ => (0 : ℚ)) ⟨some 0, 0⟩ (100, 100, 100)) ⟨some 0, 0⟩
        = (100, 100, 100)) ∧
    (triplet (RGBToYCbCr SampleType.exact ⟨some 1, 0⟩ ⟨some 0, 0⟩
        (withTriplet (fun _ => 0) ⟨some 0, 0⟩ (100, 100, 100))) ⟨some 1, 0⟩
        = (0.859 * 100 + 16, 128, 128) ∧
      triplet (RGBToYUV SampleType.exact ⟨some 1, 0⟩ ⟨some 0, 0⟩
        (withTriplet (fun _ => 0) ⟨some 0, 0⟩ (100, 100, 100))) ⟨some 1, 0⟩
        = (100, 0, 0)) :=
  have hin : triplet (withTriplet (fun _ => (0 : ℚ)) ⟨some 0, 0⟩ (100, 100, 100)) ⟨some 0, 0⟩
      = (100, 100, 100) := by
    simp [triplet, withTriplet, Mem.store, Ptr.add]
  ⟨⟨Or.inl (by decide), hin⟩,
   C19_grey_neutral ⟨some 1, 0⟩ ⟨some 0, 0⟩
     (withTriplet (fun _ => 0) ⟨some 0, 0⟩ (100, 100, 100)) 100 (Or.inl (by decide)) hin⟩

/-! ## Layout -/

/-- Quotient and remainder are unique: `P*c + k` with `0 ≤ k < c` determines
`P` and `k`. -/
theorem divmod_unique (c P Q k l : Int) (hk0 : 0 ≤ k) (hk : k < c) (hl0 : 0 ≤ l) (hl : l < c)
    (e : P * c + k = Q * c + l) : P = Q ∧ k = l := by
  have hc : 0 ≤ c := by omega
  rcases lt_trichotomy P Q with h | h | h
  · have h1 : (P + 1) * c ≤ Q * c := Int.mul_le_mul_of_nonneg_right (by omega) hc
    have h2 : (P + 1) * c = P * c + c := by ring
    omega
  · subst h
    exact ⟨rfl, by omega⟩
  · have h1 : (Q + 1) * c ≤ P * c := Int.mul_le_mul_of_nonneg_right (by omega) hc
    have h2 : (Q + 1) * c = Q * c + c := by ring
    omega

/-- C17: for an image with `w, h, c ≥ 1` whose element count fits in an `s32`,
the map `(x,y,k) ↦ (y*w+x)*c + k` on `0 ≤ x < w`, `0 ≤ y < h`, `0 ≤ k < c` is
injective and onto `[0, w*h*c)`; `operator()(x,y)` returns the reference to
element `(y*w+x)*c`, every sample `(y*w+x)*c + k` of the pixel is accepted by
`operator[]`, samples of different pixels are different elements, and the
`s32` products and sums of the index computation equal the exact ones. -/
theorem C17_layout_bijection (a : Image) (hw : 1 ≤ a.width_) (hh : 1 ≤ a.height_)
    (hc : 1 ≤ a.channels_) (hfit : a.width_ * a.height_ * a.channels_ ≤ S32_MAX) :
    (∀ x y k x1 y1 k1 : Int, 0 ≤ x → x < a.width_ → 0 ≤ y → y < a.height_ →
      0 ≤ k → k < a.channels_ → 0 ≤ x1 → x1 < a.width_ → 0 ≤ y1 → y1 < a.height_ →
      0 ≤ k1 → k1 < a.channels_ →
      (y * a.width_ + x) * a.channels_ + k = (y1 * a.width_ + x1) * a.channels_ + k1 →
      x = x1 ∧ y = y1 ∧ k = k1) ∧
    (∀ i : Int, 0 ≤ i → i < a.width_ * a.height_ * a.channels_ →
      ∃ x y k : Int, (0 ≤ x ∧ x < a.width_) ∧ (0 ≤ y ∧ y < a.height_) ∧
        (0 ≤ k ∧ k < a.channels_) ∧ i = (y * a.width_ + x) * a.channels_ + k) ∧
    (∀ x y k : Int, 0 ≤ x → x < a.width_ → 0 ≤ y → y < a.height_ → 0 ≤ k → k < a.channels_ →
      a.operator_call x y = .ok (a.data_.add ((y * a.width_ + x) * a.channels_)) ∧
      a.operator_index ((y * a.width_ + x) * a.channels_ + k)
        = .ok (a.data_.add ((y * a.width_ + x) * a.channels_ + k)) ∧
      (0 ≤ (y * a.width_ + x) * a.channels_ + k ∧
        (y * a.width_ + x) * a.channels_ + k < a.width_ * a.height_ * a.channels_)) ∧
    (∀ x y : Int, 0 ≤ x → x < a.width_ → 0 ≤ y → y < a.height_ →
      mul32 y a.width_ = y * a.width_ ∧ add32 (y * a.width_) x = y * a.width_ + x ∧
      mul32 (y * a.width_ + x) a.channels_ = (y * a.width_ + x) * a.channels_ ∧
      mul32 a.width_ a.height_ = a.width_ * a.height_ ∧
      mul32 (a.width_ * a.height_) a.channels_ = a.width_ * a.height_ * a.channels_) := by
  unfold S32_MAX at hfit
  have hwh : 1 ≤ a.width_ * a.height_ := by
    have := Int.mul_le_mul hw hh (by omega) (by omega)
    omega
  have hwhc : a.width_ * a.height_ ≤ a.width_ * a.height_ * a.channels_ := by
    have := Int.mul_le_mul_of_nonneg_left hc (show 0 ≤ a.width_ * a.height_ by omega)
    omega
  have hcnt : mul32 (mul32 a.width_ a.height_) a.channels_
      = a.width_ * a.height_ * a.channels_ :=
    mul32_mul32_of_fits _ _ _ (by omega) hfit
  have hpix : ∀ x y : Int, 0 ≤ x → x < a.width_ → 0 ≤ y → y < a.height_ →
      0 ≤ y * a.width_ ∧ y * a.width_ + x + 1 ≤ a.width_ * a.height_ := by
    intro x y hx0 hx hy0 hy
    have h1 : 0 ≤ y * a.width_ := Int.mul_nonneg hy0 (by omega)
    have h2 : (y + 1) * a.width_ ≤ a.height_ * a.width_ :=
      Int.mul_le_mul_of_nonneg_right (by omega) (by omega)
    have h3 : (y + 1) * a.width_ = y * a.width_ + a.width_ := by ring
    have h4 : a.height_ * a.width_ = a.width_ * a.height_ := by ring
    exact ⟨h1, by omega⟩
  refine ⟨?_, ?_, ?_, ?_⟩
  · intro x y k x1 y1 k1 hx0 hx hy0 hy hk0 hk hx10 hx1 hy10 hy1 hk10 hk1 e
    obtain ⟨e1, e2⟩ := divmod_unique a.channels_ _ _ k k1 hk0 hk hk10 hk1 e
    obtain ⟨e3, e4⟩ := divmod_unique a.width_ y y1 x x1 hx0 hx hx10 hx1 e1
    exact ⟨e4, e3, e2⟩
  · intro i hi0 hi
    have hcpos : 0 < a.channels_ := by omega
    have hwpos : 0 < a.width_ := by omega
    have hP0 : 0 ≤ i / a.channels_ := Int.ediv_nonneg hi0 (by omega)
    have hP : i / a.channels_ < a.width_ * a.height_ :=
      Int.ediv_lt_of_lt_mul hcpos hi
    have hy : i / a.channels_ / a.width_ < a.height_ :=
      Int.ediv_lt_of_lt_mul hwpos (by rw [Int.mul_comm]; exact hP)
    refine ⟨i / a.channels_ % a.width_, i / a.channels_ / a.width_, i % a.channels_,
      ⟨Int.emod_nonneg _ (by omega), Int.emod_lt_of_pos _ hwpos⟩,
      ⟨Int.ediv_nonneg hP0 (by omega), hy⟩,
      ⟨Int.emod_nonneg _ (by omega), Int.emod_lt_of_pos _ hcpos⟩, ?_⟩
    have e1 : i / a.channels_ / a.width_ * a.width_ + i / a.channels_ % a.width_
        = i / a.channels_ := by
      rw [Int.mul_comm]
      exact Int.ediv_add_emod _ _
    rw [e1, Int.mul_comm]
    exact (Int.ediv_add_emod _ _).symm
  · intro x y k hx0 hx hy0 hy hk0 hk
    obtain ⟨hb0, hb1⟩ :=
      pixel_index_bounds a.width_ a.height_ a.channels_ x y (by omega) hx0 hx hy0 hy
    have hidx : mul32 (add32 (mul32 y a.width_) x) a.channels_
        = (y * a.width_ + x) * a.channels_ := by
      rw [index32, wrap32_eq_self (by omega) (by omega)]
    refine ⟨?_, ?_, by omega, by omega⟩
    · unfold Image.operator_call
      rw [if_pos ⟨hx0, hx⟩, if_pos ⟨hy0, hy⟩, hidx]
    · unfold Image.operator_index
      rw [hcnt, if_pos ⟨by omega, by omega⟩]
  · intro x y hx0 hx hy0 hy
    obtain ⟨hb0, hb1⟩ :=
      pixel_index_bounds a.width_ a.height_ a.channels_ x y (by omega) hx0 hx hy0 hy
    obtain ⟨hp0, hp1⟩ := hpix x y hx0 hx hy0 hy
    unfold mul32 add32
    exact ⟨wrap32_eq_self (by omega) (by omega), wrap32_eq_self (by omega) (by omega),
      wrap32_eq_self (by omega) (by omega), wrap32_eq_self (by omega) (by omega),
      wrap32_eq_self (by omega) (by omega)⟩

/-- C17, witness: a `2 x 2` image with three channels: the twelve linear
indices are reached, and pixel `(1,1)` starts at element `9`. -/
theorem C17_layout_bijection_witness :
    ((1 : Int) ≤ 2 ∧ (2 : Int) * 2 * 3 ≤ S32_MAX) ∧
    (∀ i : Int, 0 ≤ i → i < 2 * 2 * 3 →
      ∃ x y k : Int, (0 ≤ x ∧ x < 2) ∧ (0 ≤ y ∧ y < 2) ∧ (0 ≤ k ∧ k < 3) ∧
        i = (y * 2 + x) * 3 + k) :=
  ⟨by decide,
   (C17_layout_bijection ⟨2, 2, 3, ⟨some 0, 0⟩⟩ (by decide) (by decide) (by decide)
      (by decide)).2.1⟩

/-! ## Byte count of the copy constructor -/

/-- C18 (code defect): for `32768 x 16384 x 1` samples of four bytes (an
element count of `2^29`, which fits in an `s32`), `Image(w,h,c)` requests
`2147483648` bytes, while the copy constructor narrows that product to the
`s32` value `-2147483648` and hands `18446744071562067968` bytes to the
allocator and to `memcpy`. -/
theorem C18_copy_size_narrowed :
    (32768 : Int) * 16384 * 1 ≤ S32_MAX ∧
    Image.byteCount 4 32768 16384 1 = 2147483648 ∧
    Image.copySize 4 ⟨32768, 16384, 1, CPPIMG_NULL⟩ = -2147483648 ∧
    toSizeT (Image.copySize 4 ⟨32768, 16384, 1, CPPIMG_NULL⟩) = 18446744071562067968 ∧
    toSizeT (Image.copySize 4 ⟨32768, 16384, 1, CPPIMG_NULL⟩)
      ≠ Image.byteCount 4 32768 16384 1 := by
  have hb : Image.byteCount 4 32768 16384 1 = 2147483648 := by decide
  have hs : Image.copySize 4 ⟨32768, 16384, 1, CPPIMG_NULL⟩ = -2147483648 := by
    unfold Image.copySize
    rw [hb]
    decide
  have ht : toSizeT (Image.copySize 4 ⟨32768, 16384, 1, CPPIMG_NULL⟩)
      = 18446744071562067968 := by
    rw [hs]
    decide
  refine ⟨by decide, hb, hs, ht, ?_⟩
  rw [ht, hb]
  decide

/-! ## Helper functions: facts -/

theorem minimum_eq_min {T : Type} [LinearOrder T] (a b : T) : minimum a b = min a b := by
  unfold minimum
  split
  · rename_i h
    exact (min_eq_left (le_of_lt h)).symm
  · rename_i h
    exact (min_eq_right (not_lt.mp h)).symm

theorem maximum_eq_max {T : Type} [LinearOrder T] (a b : T) : maximum a b = max a b := by
  unfold maximum
  split
  · rename_i h
    exact (max_eq_right (le_of_lt h)).symm
  · rename_i h
    exact (max_eq_left (not_lt.mp h)).symm

theorem clamp_eq {T : Type} [LinearOrder T] (x minv maxv : T) :
    clamp x minv maxv = min (max x minv) maxv := by
  unfold clamp
  simp only [minimum_eq_min, maximum_eq_max]

/-- On a total order: `clamp` lies between its bounds, keeps a value that is
between them, and `minimum ≤ maximum`. -/
theorem clamp_total {T : Type} [LinearOrder T] (x minv maxv a b : T) (h : minv ≤ maxv) :
    (minv ≤ clamp x minv maxv ∧ clamp x minv maxv ≤ maxv) ∧
    (minv ≤ x → x ≤ maxv → clamp x minv maxv = x) ∧
    (x < minv → clamp x minv maxv = minv) ∧
    (maxv < x → clamp x minv maxv = maxv) ∧
    clamp (clamp x minv maxv) minv maxv = clamp x minv maxv ∧
    (minimum a b = a ∨ minimum a b = b) ∧
    (maximum a b = a ∨ maximum a b = b) ∧
    minimum a b ≤ maximum a b := by
  have hin : minv ≤ clamp x minv maxv ∧ clamp x minv maxv ≤ maxv := by
    rw [clamp_eq]
    exact ⟨le_min (le_max_right x minv) h, min_le_right _ _⟩
  have hid : ∀ z : T, minv ≤ z → z ≤ maxv → clamp z minv maxv = z := by
    intro z h1 h2
    rw [clamp_eq, max_eq_left h1, min_eq_left h2]
  refine ⟨hin, hid x, ?_, ?_, hid _ hin.1 hin.2, ?_, ?_, ?_⟩
  · intro hx
    rw [clamp_eq, max_eq_right (le_of_lt hx), min_eq_left h]
  · intro hx
    rw [clamp_eq, max_eq_left (le_trans h (le_of_lt hx)), min_eq_right (le_of_lt hx)]
  · rw [minimum_eq_min]
    exact min_choice a b
  · rw [maximum_eq_max]
    exact max_choice a b
  · rw [minimum_eq_min, maximum_eq_max]
    exact le_trans (min_le_left a b) (le_max_left a b)

theorem WithNaN.num_lt_num {α : Type} [LT α] (x y : α) :
    (WithNaN.num x < WithNaN.num y) ↔ x < y := Iff.rfl

theorem WithNaN.num_le_num {α : Type} [LE α] (x y : α) :
    (WithNaN.num x ≤ WithNaN.num y) ↔ x ≤ y := Iff.rfl

theorem WithNaN.not_nan_lt {α : Type} [LT α] (b : WithNaN α) : ¬ (WithNaN.nan < b) :=
  fun h => h

theorem WithNaN.not_lt_nan {α : Type} [LT α] (a : WithNaN α) : ¬ (a < WithNaN.nan) := by
  cases a <;> exact fun h => h

theorem WithNaN.not_le_nan {α : Type} [LE α] (a : WithNaN α) : ¬ (a ≤ WithNaN.nan) := by
  cases a <;> exact fun h => h

theorem WithNaN.not_nan_le {α : Type} [LE α] (b : WithNaN α) : ¬ (WithNaN.nan ≤ b) :=
  fun h => h

/-- On numbers, `minimum` of floating-point values is `minimum` of the numbers. -/
theorem WithNaN.minimum_num {α : Type} [LinearOrder α] (x y : α) :
    minimum (WithNaN.num x) (WithNaN.num y) = WithNaN.num (minimum x y) := by
  unfold minimum
  by_cases h : x < y
  · rw [if_pos h, if_pos ((WithNaN.num_lt_num x y).mpr h)]
  · rw [if_neg h, if_neg (fun h2 => h ((WithNaN.num_lt_num x y).mp h2))]

/-- On numbers, `maximum` of floating-point values is `maximum` of the numbers. -/
theorem WithNaN.maximum_num {α : Type} [LinearOrder α] (x y : α) :
    maximum (WithNaN.num x) (WithNaN.num y) = WithNaN.num (maximum x y) := by
  unfold maximum
  by_cases h : x < y
  · rw [if_pos h, if_pos ((WithNaN.num_lt_num x y).mpr h)]
  · rw [if_neg h, if_neg (fun h2 => h ((WithNaN.num_lt_num x y).mp h2))]

theorem WithNaN.clamp_num {α : Type} [LinearOrder α] (x lo hi : α) :
    clamp (WithNaN.num x) (WithNaN.num lo) (WithNaN.num hi) = WithNaN.num (clamp x lo hi) := by
  unfold clamp
  simp only [WithNaN.maximum_num, WithNaN.minimum_num]

/-- Clamping NaN between two numbers gives the upper bound. -/
theorem WithNaN.clamp_nan {α : Type} [LinearOrder α] (lo hi : α) :
    clamp (WithNaN.nan : WithNaN α) (WithNaN.num lo) (WithNaN.num hi) = WithNaN.num hi := by
  unfold clamp maximum minimum
  simp only []
  rw [if_neg (WithNaN.not_nan_lt _), if_neg (WithNaN.not_nan_lt _)]

/-- Either argument being anything, `minimum` returns one of its arguments. -/
theorem minimum_choice {T : Type} [LT T] [∀ a b : T, Decidable (a < b)] (a b : T) :
    minimum a b = a ∨ minimum a b = b := by
  unfold minimum
  split
  · exact Or.inl rfl
  · exact Or.inr rfl

/-- Either argument being anything, `maximum` returns one of its arguments. -/
theorem maximum_choice {T : Type} [LT T] [∀ a b : T, Decidable (a < b)] (a b : T) :
    maximum a b = a ∨ maximum a b = b := by
  unfold maximum
  split
  · exact Or.inr rfl
  · exact Or.inl rfl

/-- C20 (amended): on a totally ordered sample type `T` (the integer types)
and on the floating-point values `WithNaN T` over it, for bounds with
`minv ≤ maxv`: `clamp(x, minv, maxv)` lies in `[minv, maxv]`, is `x` when
`minv ≤ x ≤ maxv`, `minv` when `x < minv`, `maxv` when `x > maxv`, and
clamping it again returns it (for a floating-point `x` also when `x` is NaN);
`minimum(a,b)` and `maximum(a,b)` each return one of their arguments; and
`minimum(a,b) ≤ maximum(a,b)` on `T`, and on floating-point values when
neither `a` nor `b` is NaN. -/
theorem C20_clamp (T : Type) [LinearOrder T] (x minv maxv a b : T) (h : minv ≤ maxv)
    (fx fmin fmax fa fb : WithNaN T) (hf : fmin ≤ fmax) :
    ((minv ≤ clamp x minv maxv ∧ clamp x minv maxv ≤ maxv) ∧
      (minv ≤ x → x ≤ maxv → clamp x minv maxv = x) ∧
      (x < minv → clamp x minv maxv = minv) ∧
      (maxv < x → clamp x minv maxv = maxv) ∧
      clamp (clamp x minv maxv) minv maxv = clamp x minv maxv ∧
      (minimum a b = a ∨ minimum a b = b) ∧
      (maximum a b = a ∨ maximum a b = b) ∧
      minimum a b ≤ maximum a b) ∧
    ((fmin ≤ clamp fx fmin fmax ∧ clamp fx fmin fmax ≤ fmax) ∧
      (fmin ≤ fx → fx ≤ fmax → clamp fx fmin fmax = fx) ∧
      (fx < fmin → clamp fx fmin fmax = fmin) ∧
      (fmax < fx → clamp fx fmin fmax = fmax) ∧
      clamp (clamp fx fmin fmax) fmin fmax = clamp fx fmin fmax ∧
      (minimum fa fb = fa ∨ minimum fa fb = fb) ∧
      (maximum fa fb = fa ∨ maximum fa fb = fb) ∧
      (fa ≠ WithNaN.nan → fb ≠ WithNaN.nan → minimum fa fb ≤ maximum fa fb)) := by
  refine ⟨clamp_total x minv maxv a b h, ?_⟩
  cases fmin with
  | nan => exact absurd hf (WithNaN.not_nan_le _)
  | num lo =>
    cases fmax with
    | nan => exact absurd hf (WithNaN.not_le_nan _)
    | num hi =>
      have hlh : lo ≤ hi := (WithNaN.num_le_num lo hi).mp hf
      have hmm : fa ≠ WithNaN.nan → fb ≠ WithNaN.nan → minimum fa fb ≤ maximum fa fb := by
        intro ha hb
        cases fa with
        | nan => exact absurd rfl ha
        | num u =>
          cases fb with
          | nan => exact absurd rfl hb
          | num v =>
            rw [WithNaN.minimum_num, WithNaN.maximum_num]
            exact (WithNaN.num_le_num _ _).mpr (clamp_total u u u u v (le_refl u)).2.2.2.2.2.2.2
      cases fx with
      | nan =>
        have hself : clamp (WithNaN.num hi) (WithNaN.num lo) (WithNaN.num hi)
            = WithNaN.num hi := by
          rw [WithNaN.clamp_num,
            (clamp_total hi lo hi lo hi hlh).2.1 hlh (le_refl hi)]
        rw [WithNaN.clamp_nan, hself]
        refine ⟨⟨hf, (WithNaN.num_le_num hi hi).mpr (le_refl hi)⟩, ?_, ?_, ?_, rfl,
          minimum_choice fa fb, maximum_choice fa fb, hmm⟩
        · intro h1
          exact absurd h1 (WithNaN.not_le_nan _)
        · intro h1
          exact absurd h1 (WithNaN.not_nan_lt _)
        · intro h1
          exact absurd h1 (WithNaN.not_lt_nan _)
      | num v =>
        obtain ⟨⟨c1, c2⟩, c3, c4, c5, c6, _, _, _⟩ := clamp_total v lo hi lo hi hlh
        rw [WithNaN.clamp_num, WithNaN.clamp_num]
        refine ⟨⟨(WithNaN.num_le_num _ _).mpr c1, (WithNaN.num_le_num _ _).mpr c2⟩, ?_, ?_, ?_,
          congrArg WithNaN.num c6, minimum_choice fa fb, maximum_choice fa fb, hmm⟩
        · intro h1 h2
          exact congrArg WithNaN.num
            (c3 ((WithNaN.num_le_num _ _).mp h1) ((WithNaN.num_le_num _ _).mp h2))
        · intro h1
          exact congrArg WithNaN.num (c4 ((WithNaN.num_lt_num _ _).mp h1))
        · intro h1
          exact congrArg WithNaN.num (c5 ((WithNaN.num_lt_num _ _).mp h1))

/-- C20, witness: integers and floating-point values over them,
`clamp(5, 0, 3) = 3` and `clamp(NaN, 0, 3)` inside `[0, 3]`. -/
theorem C20_clamp_witness :
    (((0 : Int) ≤ 3) ∧ (WithNaN.num (0 : Int) ≤ WithNaN.num 3)) ∧
    (((0 : Int) ≤ clamp 5 0 3 ∧ clamp (5 : Int) 0 3 ≤ 3) ∧
      (WithNaN.num (0 : Int) ≤ clamp WithNaN.nan (WithNaN.num 0) (WithNaN.num 3) ∧
        clamp WithNaN.nan (WithNaN.num (0 : Int)) (WithNaN.num 3) ≤ WithNaN.num 3)) :=
  ⟨⟨by decide, (WithNaN.num_le_num (0 : Int) 3).mpr (by decide)⟩,
   (C20_clamp Int 5 0 3 1 2 (by decide) WithNaN.nan (WithNaN.num 0) (WithNaN.num 3)
      (WithNaN.num 1) WithNaN.nan ((WithNaN.num_le_num (0 : Int) 3).mpr (by decide))).1.1,
   (C20_clamp Int 5 0 3 1 2 (by decide) WithNaN.nan (WithNaN.num 0) (WithNaN.num 3)
      (WithNaN.num 1) WithNaN.nan ((WithNaN.num_le_num (0 : Int) 3).mpr (by decide))).2.1⟩

/-- C20, counterexample: on floating-point values, `minimum(NaN, 1) = 1` and
`maximum(NaN, 1) = NaN`, and `1 ≤ NaN` is false: `minimum(a,b) ≤ maximum(a,b)`
fails. -/
theorem C20_counterexample :
    minimum (WithNaN.nan : WithNaN ℚ) (WithNaN.num 1) = WithNaN.num 1 ∧
    maximum (WithNaN.nan : WithNaN ℚ) (WithNaN.num 1) = WithNaN.nan ∧
    ¬ (minimum (WithNaN.nan : WithNaN ℚ) (WithNaN.num 1)
        ≤ maximum (WithNaN.nan : WithNaN ℚ) (WithNaN.num 1)) := by
  have h1 : minimum (WithNaN.nan : WithNaN ℚ) (WithNaN.num 1) = WithNaN.num 1 := by
    unfold minimum
    rw [if_neg (WithNaN.not_nan_lt _)]
  have h2 : maximum (WithNaN.nan : WithNaN ℚ) (WithNaN.num 1) = WithNaN.nan := by
    unfold maximum
    rw [if_neg (WithNaN.not_nan_lt _)]
  refine ⟨h1, h2, ?_⟩
  rw [h1, h2]
  exact WithNaN.not_le_nan _

end cppimg
